import Mathlib

/-!
A shallow embedding of the `valid` Go validation library.

This file embeds the validation engine of the repository (files
`validation.go` and `rule.go`, package `valid`) into Lean 4 and proves
properties of the embedding.

Modelling conventions:

* Go strings are modelled as `List Char` (one entry per rune).  Where Go
  works with *bytes* (`len`, byte indices) the model computes the UTF-8
  byte length of the rune list, which agrees with Go on every string.
* Go `int64`/`uint64`/`float64` field values are modelled as `Int`, `Nat`
  and `ℚ` respectively.  Binary floating-point rounding is not modelled;
  every comparison appearing in the source is an order comparison, which
  agrees with the rational model on all values free of rounding at the
  compared magnitudes (in particular on all integral bounds used by the
  claims).
* Go panics are modelled with `Except (List Char) _`: `.error d` is a
  panic carrying detail `d` (the `%v` rendering of the panic value).
* External collaborators that are not part of the repository (the
  `net/mail` address parser, the database behind the `unique` rule, the
  MIME sniffer, and the repository's `locale` message package, which is
  not among the provided sources) are modelled as components of an
  environment record `Env`; all theorems are proved for every
  environment.
* The value universe covers string, signed-integer, unsigned-integer,
  float, bool, slice and pointer (file / non-struct) field kinds.
  Nested-record recursion (§4.5 of the spec) and interface-typed fields
  are outside the claims checked here and are not part of the universe.
-/

namespace Valid

/-! Section: Character and string utilities (models of Go's `strings`/`strconv`) -/

/-- ASCII decimal digit test (`[0-9]` in the source's regular expressions). -/
def isDigitCh (c : Char) : Bool := '0' ≤ c && c ≤ '9'

/-- Nonzero ASCII digit test (`[1-9]` in the source's regular expressions). -/
def isNonzeroDigit (c : Char) : Bool := '1' ≤ c && c ≤ '9'

/-- ASCII letter test (`[a-zA-Z]` in the source's regular expressions). -/
def isAlphaCh (c : Char) : Bool := ('a' ≤ c && c ≤ 'z') || ('A' ≤ c && c ≤ 'Z')

/-- Model of Go `unicode.IsSpace` restricted to the Latin-1 block
(space, tab, newline, vertical tab, form feed, carriage return, NEL,
no-break space).  The full Unicode space table is not modelled; every
string appearing in the claims is ASCII. -/
def goIsSpace (c : Char) : Bool :=
  c = ' ' || c = '\t' || c = '\n' || c = Char.ofNat 11 || c = Char.ofNat 12 ||
  c = '\r' || c = Char.ofNat 133 || c = Char.ofNat 160

/-- Model of Go `strings.TrimSpace`. -/
def trimSpaceL (s : List Char) : List Char :=
  ((s.dropWhile goIsSpace).reverse.dropWhile goIsSpace).reverse

/-- Lower-case one ASCII character (model of Go byte-wise lowering). -/
def toLowerCh (c : Char) : Char :=
  if 'A' ≤ c && c ≤ 'Z' then Char.ofNat (c.toNat + 32) else c

/-- Upper-case one ASCII character (model of Go byte-wise raising). -/
def toUpperCh (c : Char) : Char :=
  if 'a' ≤ c && c ≤ 'z' then Char.ofNat (c.toNat - 32) else c

/-- Model of Go `strings.ToLower` on ASCII data. -/
def toLowerL (s : List Char) : List Char := s.map toLowerCh

/-- Model of Go `strings.Contains(s, string c)` for a one-character needle. -/
def containsCh (c : Char) (s : List Char) : Bool := s.any (· = c)

/-- Model of Go `strings.HasPrefix`. -/
def startsWithL : List Char → List Char → Bool
  | [], _ => true
  | _ :: _, [] => false
  | p :: ps, c :: cs => p = c && startsWithL ps cs

/-- Model of Go `strings.Split(s, string sep)` for a one-character
separator. -/
def splitOnCh (sep : Char) : List Char → List (List Char)
  | [] => [[]]
  | c :: rest =>
    let r := splitOnCh sep rest
    if c = sep then [] :: r
    else
      match r with
      | [] => [[c]]
      | h :: t => (c :: h) :: t

/-- Model of Go `strings.SplitN(s, string sep, 2)`: the part before the
first separator, and the remainder when the separator occurs. -/
def splitN2 (sep : Char) : List Char → List Char × Option (List Char)
  | [] => ([], none)
  | c :: rest =>
    if c = sep then ([], some rest)
    else
      let p := splitN2 sep rest
      (c :: p.1, p.2)

/-- UTF-8 encoded size of one rune (model of Go's byte-level view of a
string). -/
def utf8Len (c : Char) : Nat :=
  if c.toNat < 128 then 1
  else if c.toNat < 2048 then 2
  else if c.toNat < 65536 then 3
  else 4

/-- Byte length of a string, as Go's `len` computes it. -/
def byteLenL (s : List Char) : Nat := (s.map utf8Len).sum

/-- Rune index of the last occurrence of `c` (`none` when absent);
used to model Go `strings.LastIndex` together with `byteLenL` of the
prefix. -/
def lastIdxOf (c : Char) (s : List Char) : Option Nat :=
  (s.foldl (fun (st : Nat × Option Nat) d =>
    (st.1 + 1, if d = c then some st.1 else st.2)) (0, none)).2

/-! Section: Number parsing and rendering (models of Go's `strconv`/`fmt`) -/

/-- Numeric value of a nonempty all-digit string. -/
def digitsVal (s : List Char) : Nat :=
  s.foldl (fun a c => a * 10 + (c.toNat - '0'.toNat)) 0

/-- Model of Go `strconv.ParseInt(s, 10, 64)` with the error ignored, as
the source does (`val, _ := strconv.ParseInt(...)`): syntax errors yield
0, range errors yield the clamped extreme value. -/
def goParseIntL (s : List Char) : Int :=
  let core : List Char → Bool := fun r => !r.isEmpty && r.all isDigitCh
  match s with
  | '+' :: r => if core r then min (digitsVal r : Int) (2 ^ 63 - 1) else 0
  | '-' :: r => if core r then max (-(digitsVal r : Int)) (-(2 ^ 63)) else 0
  | r => if core r then min (digitsVal r : Int) (2 ^ 63 - 1) else 0

/-- Model of Go `strconv.ParseUint(s, 10, 64)` with the error ignored:
syntax errors (including any sign) yield 0, range errors clamp. -/
def goParseUintL (s : List Char) : Nat :=
  if !s.isEmpty && s.all isDigitCh then min (digitsVal s) (2 ^ 64 - 1) else 0

/-- Model of Go `strconv.Atoi` (= `ParseInt(s, 10, 0)` on a 64-bit
platform) with the error ignored. -/
def goAtoiL (s : List Char) : Int := goParseIntL s

/-- Reduce an unbounded integer to Go `int64` two's-complement
wraparound semantics (Go arithmetic on `int64` wraps on overflow). -/
def int64Wrap (x : Int) : Int := (x + 2 ^ 63) % 2 ^ 64 - 2 ^ 63

/-- Split a mantissa-and-exponent string at the first `e`/`E`. -/
def splitExpo : List Char → List Char × Option (List Char)
  | [] => ([], none)
  | c :: rest =>
    if c = 'e' || c = 'E' then ([], some rest)
    else
      let p := splitExpo rest
      (c :: p.1, p.2)

/-- Syntax of the decimal-mantissa part `[0-9]*\.?[0-9]+`. -/
def mantissaOK (m : List Char) : Bool :=
  match splitN2 '.' m with
  | (a, none) => !a.isEmpty && a.all isDigitCh
  | (a, some b) => a.all isDigitCh && !b.isEmpty && b.all isDigitCh

/-- Syntax of an optionally-signed nonempty digit string. -/
def signedDigitsOK (e : List Char) : Bool :=
  match e with
  | '+' :: r => !r.isEmpty && r.all isDigitCh
  | '-' :: r => !r.isEmpty && r.all isDigitCh
  | r => !r.isEmpty && r.all isDigitCh

/-- Exact rational value of a decimal mantissa (digits with at most one
point). -/
def mantissaVal (m : List Char) : ℚ :=
  match splitN2 '.' m with
  | (a, none) => (digitsVal a : ℚ)
  | (a, some b) => (digitsVal a : ℚ) + (digitsVal b : ℚ) / (10 : ℚ) ^ b.length

/-- Integer value of an optionally-signed digit string (exponents). -/
def signedDigitsVal (e : List Char) : Int :=
  match e with
  | '+' :: r => (digitsVal r : Int)
  | '-' :: r => -(digitsVal r : Int)
  | r => (digitsVal r : Int)

/-- Syntax of Go `strconv.ParseFloat`'s decimal mantissa: digits with
at most one point and at least one digit in total, so `"1."`, `".5"`
and `"15"` are all legal (unlike the stricter pattern `mantissaOK`,
which transcribes the source's float *regular expression* and requires
a digit after the point). -/
def goMantissaOK (m : List Char) : Bool :=
  match splitN2 '.' m with
  | (a, none) => !a.isEmpty && a.all isDigitCh
  | (a, some b) => a.all isDigitCh && b.all isDigitCh && (!a.isEmpty || !b.isEmpty)

/-- Unsigned part of the `ParseFloat` model: decimal mantissa with an
optional decimal exponent, evaluated exactly in `ℚ`; ill-formed input
yields 0. -/
def goFloatBody (r : List Char) : ℚ :=
  match splitExpo r with
  | (m, none) => if goMantissaOK m then mantissaVal m else 0
  | (m, some e) =>
    if goMantissaOK m && signedDigitsOK e then
      mantissaVal m * (10 : ℚ) ^ (signedDigitsVal e)
    else 0

/-- Model of Go `strconv.ParseFloat(s, 64)` with the error ignored, on
its decimal forms: optional sign, digits with at most one point (a
trailing or leading point is legal, as in Go), optional decimal
exponent, evaluated exactly in `ℚ`.  Not modelled (they yield 0 here):
the `inf`/`nan` special values, which have no rational counterpart,
hexadecimal floats, and underscore-separated digits; nor is rounding to
binary `float64`.  Theorems that compare float-kind values against
parsed bounds therefore restrict the bound strings to plain digit runs
below `2^53`, where this model and `float64` agree exactly. -/
def goParseFloatL (s : List Char) : ℚ :=
  match s with
  | [] => 0
  | c :: r =>
    if c = '+' then goFloatBody r
    else if c = '-' then -(goFloatBody r)
    else goFloatBody (c :: r)

/-- Decimal rendering of a natural number (`fmt` `%d`). -/
def natDec (n : Nat) : List Char := Nat.toDigits 10 n

/-- Decimal rendering of an integer (`fmt` `%d`). -/
def intDec (i : Int) : List Char :=
  if i < 0 then '-' :: natDec i.natAbs else natDec i.natAbs

/-- Model of `fmt.Sprintf("%.2f", x)`: fixed two fractional digits.  Go
rounds the binary value; the model rounds the rational value (the
difference is invisible to the anchored-regular-expression check this
rendering feeds, which is the only consumer in the source). -/
def goFormatF2 (q : ℚ) : List Char :=
  let n : Nat := (round (|q| * 100) : Int).toNat
  let ip := n / 100
  let fp := n % 100
  (if q < 0 then ['-'] else []) ++ natDec ip ++
    ['.', Nat.digitChar (fp / 10), Nat.digitChar (fp % 10)]

/-- Model of `fmt.Sprintf` for the call shapes used by the source: the
format is scanned for `%s`/`%v` verbs, which consume the string
arguments in order; missing arguments render as `%!s(MISSING)` and
leftover arguments are appended in Go's `%!(EXTRA ...)` form. -/
def goSprintf : List Char → List (List Char) → List Char
  | '%' :: 's' :: rest, a :: as => a ++ goSprintf rest as
  | '%' :: 'v' :: rest, a :: as => a ++ goSprintf rest as
  | '%' :: 's' :: rest, [] => "%!s(MISSING)".data ++ goSprintf rest []
  | '%' :: 'v' :: rest, [] => "%!v(MISSING)".data ++ goSprintf rest []
  | c :: rest, as => c :: goSprintf rest as
  | [], [] => []
  | [], a :: as =>
    "%!(EXTRA string=".data ++ a ++
      (as.foldr (fun x acc => ", string=".data ++ x ++ acc) []) ++ [')']

/-! Section: Data model -/

/-- Model of `*multipart.FileHeader` as the engine observes it:
`size` is the `Size` field; `openable` models whether `readFile`
(that is, `fh.Open()`) succeeds; `ext` is the extension the external
MIME sniffer (`mimetype.Detect(buffer).Extension()`, spec §6) reports
for the file's content, e.g. `".png"`. -/
structure FileHeader where
  size : Int
  openable : Bool
  ext : List Char
deriving DecidableEq

/-- A field's runtime value, by reflection kind.  `sliceV` covers the
slice and array kinds (identical dispatch in the source); `ptrFile` is a
`*multipart.FileHeader` (with `none` for a typed nil); `ptrOther` is a
pointer to a non-struct, non-file target (`true` = nil pointer). -/
inductive GoValue where
  | strV (s : List Char)
  | intV (i : Int)
  | uintV (n : Nat)
  | floatV (q : ℚ)
  | boolV (b : Bool)
  | sliceV (elems : List GoValue)
  | ptrFile (fh : Option FileHeader)
  | ptrOther (isNil : Bool)

/-- One struct field as the engine sees it: the `json` and `validate`
struct tags (absent tags make the field ineligible) and the runtime
value. -/
structure GoField where
  jsonTag : Option (List Char)
  validateTag : Option (List Char)
  value : GoValue

/-- A field is validated only when it carries both tags
(`structValidator`'s two `Tag.Lookup` guards). -/
def GoField.eligible (f : GoField) : Bool :=
  f.jsonTag.isSome && f.validateTag.isSome

/-- External collaborators of the engine (spec §6), plus the
repository's `locale` message package, which is imported by
`validation.go` but is not among the provided sources.

* `mailParseOk s`: whether `net/mail.ParseAddress(s)` succeeds.
* `uniqueCheck value table column`: models `isNotUnique`'s database
  round trip after `connectDB`; `.ok b` means the query answered with
  `b = true` iff a row exists, `.error d` models the panic raised on a
  connection/scan fault (or a nil/invalid DB configuration).
* `localeTemplate loc key`: Modelled from the spec: the locale message
  store (`locale.EN` / `locale.FR`, spec §4.6/§6) is a read-only lookup
  from message key to format template, `none` when absent (the engine
  then falls back to the raw key). -/
structure Env where
  mailParseOk : List Char → Bool
  uniqueCheck : List Char → List Char → List Char → Except (List Char) Bool
  localeTemplate : List Char → List Char → Option (List Char)

/-- A default environment for concrete evaluations: the mail parser
rejects, the uniqueness check answers "not found", the locale store is
empty (every message falls back to its raw key). -/
def env0 : Env :=
  { mailParseOk := fun _ => false
    uniqueCheck := fun _ _ _ => .ok false
    localeTemplate := fun _ _ => none }

/-- The payload of one report entry (`message.V`, of Go type `any`):
a rendered string, a nested `map[string]any` (the error map a nested
`ValidateStruct` call returns), or the `[]any` of per-element messages a
slice field produces. -/
inductive MsgVal where
  | strM (s : List Char)
  | nestedM (entries : List (List Char × MsgVal))
  | listM (items : List MsgVal)

instance : Inhabited MsgVal := ⟨.strM []⟩

instance : Inhabited GoValue := ⟨.strV []⟩

/-- Whether a message payload is the empty string (the comparison
`msg.V != ""` in `structValidator`, and `customMsg != ""` in
`setMessage`; a Go `any` compares equal to `""` exactly when it holds
the empty string). -/
def MsgVal.isEmptyStr : MsgVal → Bool
  | .strM [] => true
  | _ => false

/-! Section: Helpers from `validation.go` (bottom section) -/

/-- Go `getRuleAndMsg`: split one chain token at the first `>` into the
rule proper and an optional literal override message. -/
def getRuleAndMsg (r : List Char) : List Char × List Char :=
  if containsCh '>' r then
    let p := splitN2 '>' r
    (p.1, p.2.getD [])
  else (r, [])

/-- Go `formatFieldName`: rewrite a camelCase wire label into lowercase
words.  The source iterates bytes; the model iterates runes, which
agrees on ASCII labels.  A byte that is not a lowercase ASCII letter
compares equal to its own upper-casing and therefore triggers the
word-break branch, exactly as in the source. -/
def formatFieldName (field : List Char) : List Char :=
  field.foldl
    (fun text c =>
      if toUpperCh c = c then
        (if text.isEmpty then [] else text ++ [' ']) ++ [toLowerCh c]
      else text ++ [toLowerCh c])
    []

/-- Go `prepareMimes`: split the caller's comma-separated extension list
and prepend a dot to each entry. -/
def prepareMimes (mimes : List Char) : List (List Char) :=
  (splitOnCh ',' mimes).map (fun m => '.' :: m)

/-- Go `snakeCase`: the source's camel-to-snake conversion (used for the
`unique` rule's column name), including its quirks: any rune below
`'a'` is shifted up by 32 and an underscore is inserted at a case
boundary. -/
def snakeCase (camel : List Char) : List Char :=
  let l := camel.length
  (List.range l).foldl
    (fun b i =>
      let v := camel.getD i ' '
      if 'a' ≤ v then b ++ [v]
      else
        let boundary :=
          (i ≠ 0 || i = l - 1) &&
            ((decide (0 < i) && 'a' ≤ camel.getD (i - 1) ' ') ||
             (decide (i < l - 1) && 'a' ≤ camel.getD (i + 1) ' '))
        (if boundary then b ++ ['_'] else b) ++ [Char.ofNat (v.toNat + 32)])
    []

/-! Section: Value observation (models of `reflect.Value` accessors) -/

/-- Model of `reflect.Value.String()`.  For a string kind it is the
string; for every other kind Go renders `"<T Value>"` with the value's
concrete type name.  The model fixes the 64-bit spelling of the numeric
type names; only the string rendering (and, via `goStringO`, the
invalid-value rendering) is observable in the claims proved here. -/
def goString : GoValue → List Char
  | .strV s => s
  | .intV _ => "<int64 Value>".data
  | .uintV _ => "<uint64 Value>".data
  | .floatV _ => "<float64 Value>".data
  | .boolV _ => "<bool Value>".data
  | .sliceV _ => "<slice Value>".data
  | .ptrFile _ => "<*multipart.FileHeader Value>".data
  | .ptrOther _ => "<ptr Value>".data

/-- Go `String()` of a possibly-invalid `reflect.Value` (the zero
`reflect.Value` renders as the literal `"<invalid Value>"`). -/
def goStringO : Option GoValue → List Char
  | none => "<invalid Value>".data
  | some v => goString v

/-- Go `fmt.Sprintf("%d", v.Interface())` for the numeric kinds the
dispatcher sends to `isNotInt`/`isNotUint`; any other kind would render
with a `%!d` error verb, which no digit pattern matches. -/
def goDecRender : GoValue → List Char
  | .intV i => intDec i
  | .uintV n => natDec n
  | v => '%' :: '!' :: 'd' :: goString v

/-- Go `fmt.Sprintf("%.2f", v.Interface())` for the float kinds; any other
kind would render with a `%!f` error verb. -/
def goFloatRender : GoValue → List Char
  | .floatV q => goFormatF2 q
  | v => '%' :: '!' :: 'f' :: goString v

/-! Section: `rule.go`: the predicate library

Each `isNot…` definition mirrors the Go function of the same name.
Regular expressions are transcribed into decidable predicates on the
rune list; anchors are preserved exactly as written in the source
(note `isNotASCII`'s pattern is unanchored and `isNotGHGPS`'s pattern
is anchored only at the end). -/

/-- Go `isEmpty`: the presence check, by kind (zero length, `false`,
numeric zero, nil). -/
def isEmpty : GoValue → Bool
  | .strV s => s.isEmpty
  | .sliceV l => l.isEmpty
  | .boolV b => !b
  | .intV i => decide (i = 0)
  | .uintV n => decide (n = 0)
  | .floatV q => decide (q = 0)
  | .ptrFile o => o.isNone
  | .ptrOther isNil => isNil

/-- Whole-string match of `^(?:[-]?(?:0|[1-9][0-9]*))$`. -/
def matchIntRegex (s : List Char) : Bool :=
  let core : List Char → Bool := fun t =>
    match t with
    | [] => false
    | c :: rest => if c = '0' then rest.isEmpty else isNonzeroDigit c && rest.all isDigitCh
  match s with
  | '-' :: r => core r
  | r => core r

/-- Go `isNotInt`: decimal rendering must match `^(?:[-]?(?:0|[1-9][0-9]*))$`. -/
def isNotInt (v : GoValue) : Bool := !matchIntRegex (goDecRender v)

/-- Whole-string match of `^[1-9]\d+$` (note: at least two digits). -/
def matchUintRegex (s : List Char) : Bool :=
  match s with
  | [] => false
  | c :: rest => isNonzeroDigit c && !rest.isEmpty && rest.all isDigitCh

/-- Go `isNotUint`: decimal rendering must match `^[1-9]\d+$`. -/
def isNotUint (v : GoValue) : Bool := !matchUintRegex (goDecRender v)

/-- Whole-string match of `^[-+]?[0-9]*\.?[0-9]+([eE][-+]?[0-9]+)?$`. -/
def matchFloatRegex (s : List Char) : Bool :=
  let body : List Char → Bool := fun r =>
    match splitExpo r with
    | (m, none) => mantissaOK m
    | (m, some e) => mantissaOK m && signedDigitsOK e
  match s with
  | '+' :: r => body r
  | '-' :: r => body r
  | r => body r

/-- Go `isNotFloat`: the `%.2f` rendering must match the float pattern. -/
def isNotFloat (v : GoValue) : Bool := !matchFloatRegex (goFloatRender v)

/-- Whole-string match of a nonempty run of characters satisfying `p`
(the `^[…]+$` patterns). -/
def matchPlus (p : Char → Bool) (s : List Char) : Bool :=
  !s.isEmpty && s.all p

/-- Go `isNotAlpha` (`^[a-zA-Z]+$`). -/
def isNotAlpha (v : GoValue) : Bool := !matchPlus isAlphaCh (goString v)

/-- Go `isNotAlphanumeric` (`^[a-zA-Z0-9]+$`). -/
def isNotAlphanumeric (v : GoValue) : Bool :=
  !matchPlus (fun c => isAlphaCh c || isDigitCh c) (goString v)

/-- Go `isNotNumeric` (`^[0-9]+$`). -/
def isNotNumeric (v : GoValue) : Bool := !matchPlus isDigitCh (goString v)

/-- Go `isNotString` (`^[0-9a-zA-Z-+ .]+$`). -/
def isNotString (v : GoValue) : Bool :=
  !matchPlus (fun c => isDigitCh c || isAlphaCh c || c = '-' || c = '+' || c = ' ' || c = '.')
    (goString v)

/-- Go `isNotSame`: whitespace-trimmed `String()` renderings differ.  The
second argument is the possibly-invalid value `getTagAndValue`
returned. -/
def isNotSame (v1 : GoValue) (v2 : Option GoValue) : Bool :=
  decide (trimSpaceL (goString v1) ≠ trimSpaceL (goStringO v2))

/-- Go `isNotASCII`: the source's pattern `[\x00-\x7F]+` is *unanchored*,
so `MatchString` succeeds as soon as any single character of the value
is ASCII; the predicate therefore reports a violation exactly when the
value contains no ASCII character at all. -/
def isNotASCII (v : GoValue) : Bool :=
  !((goString v).any (fun c => c.toNat ≤ 127))

/-- Go `isNotEmail`: byte-length window 6–254, a last `@` that is neither
first nor within the final two bytes, a domain outside the fixed
blacklist, a local part of at most 64 bytes, and acceptance by the
external RFC-822 mailbox parser (`net/mail.ParseAddress`, via the
environment). -/
def isNotEmail (env : Env) (v : GoValue) : Bool :=
  let s := goString v
  let bl := byteLenL s
  if bl < 6 || bl > 254 then true
  else
    match lastIdxOf '@' s with
    | none => true
    | some i =>
      let atB := byteLenL (s.take i)
      if atB = 0 || (atB : Int) > (bl : Int) - 3 then true
      else
        let domain := s.drop (i + 1)
        if domain = "localhost".data || domain = "localhost.com".data ||
            domain = "example.com".data then true
        else if atB > 64 then true
        else !env.mailParseOk s

/-- Whole-string match of `^0\d{9}$`. -/
def matchPhone (s : List Char) : Bool :=
  match s with
  | '0' :: r => decide (r.length = 9) && r.all isDigitCh
  | _ => false

/-- Go `isNotPhone`. -/
def isNotPhone (v : GoValue) : Bool := !matchPhone (goString v)

/-- The country calling codes of the `isNotPhoneWithCode` alternation,
transcribed verbatim from the source's pattern. -/
def phoneCodes : List (List Char) :=
  (["999", "998", "997", "996", "995", "994", "993", "992", "991", "990", "979",
    "978", "977", "976", "975", "974", "973", "972", "971", "970", "969", "968",
    "967", "966", "965", "964", "963", "962", "961", "960", "899", "898", "897",
    "896", "895", "894", "893", "892", "891", "890", "889", "888", "887", "886",
    "885", "884", "883", "882", "881", "880", "879", "878", "877", "876", "875",
    "874", "873", "872", "871", "870", "859", "858", "857", "856", "855", "854",
    "853", "852", "851", "850", "839", "838", "837", "836", "835", "834", "833",
    "832", "831", "830", "809", "808", "807", "806", "805", "804", "803", "802",
    "801", "800", "699", "698", "697", "696", "695", "694", "693", "692", "691",
    "690", "689", "688", "687", "686", "685", "684", "683", "682", "681", "680",
    "679", "678", "677", "676", "675", "674", "673", "672", "671", "670", "599",
    "598", "597", "596", "595", "594", "593", "592", "591", "590", "509", "508",
    "507", "506", "505", "504", "503", "502", "501", "500", "429", "428", "427",
    "426", "425", "424", "423", "422", "421", "420", "389", "388", "387", "386",
    "385", "384", "383", "382", "381", "380", "379", "378", "377", "376", "375",
    "374", "373", "372", "371", "370", "359", "358", "357", "356", "355", "354",
    "353", "352", "351", "350", "299", "298", "297", "296", "295", "294", "293",
    "292", "291", "290", "289", "288", "287", "286", "285", "284", "283", "282",
    "281", "280", "269", "268", "267", "266", "265", "264", "263", "262", "261",
    "260", "259", "258", "257", "256", "255", "254", "253", "252", "251", "250",
    "249", "248", "247", "246", "245", "244", "243", "242", "241", "240", "239",
    "238", "237", "236", "235", "234", "233", "232", "231", "230", "229", "228",
    "227", "226", "225", "224", "223", "222", "221", "220", "219", "218", "217",
    "216", "215", "214", "213", "212", "211", "210", "98", "95", "94", "93",
    "92", "91", "90", "86", "84", "82", "81", "66", "65", "64", "63", "62",
    "61", "60", "58", "57", "56", "55", "54", "53", "52", "51", "49", "48",
    "47", "46", "45", "44", "43", "41", "40", "39", "36", "34", "33", "32",
    "31", "30", "27", "20", "7", "1"] : List String).map String.data

/-- Whole-string membership in `^\+(…codes…)[0-9]{1,14}$`: a plus sign,
one of the calling codes, then one to fourteen digits. -/
def matchPhoneWithCode (s : List Char) : Bool :=
  match s with
  | '+' :: r =>
    phoneCodes.any (fun code =>
      startsWithL code r &&
        (let d := r.drop code.length
         decide (1 ≤ d.length) && decide (d.length ≤ 14) && d.all isDigitCh))
  | _ => false

/-- Go `isNotPhoneWithCode`. -/
def isNotPhoneWithCode (v : GoValue) : Bool := !matchPhoneWithCode (goString v)

/-- Go `isNotUsername`: dispatch to email when the value contains `@`,
else to phone-with-code when it starts with `+`, else to plain phone. -/
def isNotUsername (env : Env) (v : GoValue) : Bool :=
  if containsCh '@' (goString v) then isNotEmail env v
  else if startsWithL ['+'] (goString v) then isNotPhoneWithCode v
  else isNotPhone v

/-- Whole-string match of `^GHA-\d{9}-\d{1}$`. -/
def matchGHCard (s : List Char) : Bool :=
  match s with
  | 'G' :: 'H' :: 'A' :: '-' :: r =>
    decide (r.length = 11) && (r.take 9).all isDigitCh &&
      r.getD 9 ' ' = '-' && isDigitCh (r.getD 10 ' ')
  | _ => false

/-- Go `isNotGHCard`. -/
def isNotGHCard (v : GoValue) : Bool := !matchGHCard (goString v)

/-- One candidate match of `[A-Z]{2}-\d{1,4}-\d{4}` covering a whole
suffix. -/
def ghgpsCore (t : List Char) : Bool :=
  match t with
  | u1 :: u2 :: '-' :: rest =>
    ('A' ≤ u1 && u1 ≤ 'Z') && ('A' ≤ u2 && u2 ≤ 'Z') &&
      (match splitN2 '-' rest with
       | (a, some f) =>
         decide (1 ≤ a.length) && decide (a.length ≤ 4) && a.all isDigitCh &&
           decide (f.length = 4) && f.all isDigitCh
       | (_, none) => false)
  | _ => false

/-- Go `isNotGHGPS`: the source's pattern `[A-Z]{2}-\d{1,4}-\d{4}$` is
anchored only at the end, so `MatchString` succeeds when *some suffix*
of the value matches. -/
def isNotGHGPS (v : GoValue) : Bool :=
  !((goString v).tails.any ghgpsCore)

/-- Go `v.Len()` for the length-measured kinds (string lengths are byte
lengths in Go). -/
def goLenV : GoValue → Nat
  | .strV s => byteLenL s
  | .sliceV l => l.length
  | _ => 0

/-- Go `isNotMin`: length/value below the bound (float: `!(x >= bound)`). -/
def isNotMin (v : GoValue) (comparable : List Char) : Bool :=
  match v with
  | .strV _ | .sliceV _ => decide ((goLenV v : Int) < goAtoiL comparable)
  | .intV i => decide (i < goParseIntL comparable)
  | .uintV n => decide (n < goParseUintL comparable)
  | .floatV q => !decide (q ≥ goParseFloatL comparable)
  | _ => false

/-- Go `isNotMax`: length/value above the bound (float: `!(x <= bound)`). -/
def isNotMax (v : GoValue) (comparable : List Char) : Bool :=
  match v with
  | .strV _ | .sliceV _ => decide ((goLenV v : Int) > goAtoiL comparable)
  | .intV i => decide (i > goParseIntL comparable)
  | .uintV n => decide (n > goParseUintL comparable)
  | .floatV q => !decide (q ≤ goParseFloatL comparable)
  | _ => false

/-- Go `isNotEqual`: length/value differs from the bound. -/
def isNotEqual (v : GoValue) (comparable : List Char) : Bool :=
  match v with
  | .strV _ | .sliceV _ => decide ((goLenV v : Int) ≠ goAtoiL comparable)
  | .intV i => decide (i ≠ goParseIntL comparable)
  | .uintV n => decide (n ≠ goParseUintL comparable)
  | .floatV q => decide (q ≠ goParseFloatL comparable)
  | _ => false

/-- Go `isNotBetween`: violates unless *strictly* inside the open interval
(`v <= min || v >= max`; float: `!(x > min && x < max)`). -/
def isNotBetween (v : GoValue) (mn mx : List Char) : Bool :=
  match v with
  | .strV _ | .sliceV _ =>
    decide ((goLenV v : Int) ≤ goAtoiL mn) || decide ((goLenV v : Int) ≥ goAtoiL mx)
  | .intV i => decide (i ≤ goParseIntL mn) || decide (i ≥ goParseIntL mx)
  | .uintV n => decide (n ≤ goParseUintL mn) || decide (n ≥ goParseUintL mx)
  | .floatV q => !(decide (q > goParseFloatL mn) && decide (q < goParseFloatL mx))
  | _ => false

/-- Go `isNotEnum`: `slices.Contains` after the `v.Interface().(string)`
type assertion — for any non-string kind the assertion panics (Go names
the value's concrete type in the panic; the model fixes the 64-bit
spelling). -/
def isNotEnum (v : GoValue) (enums : List (List Char)) : Except (List Char) Bool :=
  match v with
  | .strV s => .ok (!enums.any (· = s))
  | .intV _ => .error "interface conversion: interface {} is int64, not string".data
  | .uintV _ => .error "interface conversion: interface {} is uint64, not string".data
  | .floatV _ => .error "interface conversion: interface {} is float64, not string".data
  | _ => .error "interface conversion: interface {} is not string".data

/-- Go `isNotFrom`: violates unless inside the *closed* interval
(`v < min || v > max`; float: `!(x >= min && x <= max)`). -/
def isNotFrom (v : GoValue) (mn mx : List Char) : Bool :=
  match v with
  | .strV _ | .sliceV _ =>
    decide ((goLenV v : Int) < goAtoiL mn) || decide ((goLenV v : Int) > goAtoiL mx)
  | .intV i => decide (i < goParseIntL mn) || decide (i > goParseIntL mx)
  | .uintV n => decide (n < goParseUintL mn) || decide (n > goParseUintL mx)
  | .floatV q => !(decide (q ≥ goParseFloatL mn) && decide (q ≤ goParseFloatL mx))
  | _ => false

/-- Go `isNotSize`: identical comparison to `isNotEqual` (the float branch
is spelled `!(x == val)` in the source). -/
def isNotSize (v : GoValue) (comparable : List Char) : Bool :=
  match v with
  | .strV _ | .sliceV _ => decide ((goLenV v : Int) ≠ goAtoiL comparable)
  | .intV i => decide (i ≠ goParseIntL comparable)
  | .uintV n => decide (n ≠ goParseUintL comparable)
  | .floatV q => !decide (q = goParseFloatL comparable)
  | _ => false

/-- The `%v` rendering of the nil-dereference runtime panic (raised by
`readFile` on a nil `*multipart.FileHeader`). -/
def nilDerefMsg : List Char :=
  "runtime error: invalid memory address or nil pointer dereference".data

/-- Go `isNotFile`: the file must be openable.  Only `*multipart.FileHeader`
values reach this predicate through the dispatcher; the fallback
`[]*multipart.FileHeader` assertion of the source would panic on any
other kind. -/
def isNotFile (v : GoValue) : Except (List Char) Bool :=
  match v with
  | .ptrFile (some fh) => .ok (!fh.openable)
  | .ptrFile none => .error nilDerefMsg
  | _ => .error "interface conversion: interface {} is not []*multipart.FileHeader".data

/-- Go `isNotMimes`: the sniffed extension of the (readable) content must
equal one of the caller's dot-prefixed extensions
(`mimetype.EqualsAny`, modelled as literal equality on the extension
strings). -/
def isNotMimes (v : GoValue) (mimes : List Char) : Except (List Char) Bool :=
  match v with
  | .ptrFile (some fh) =>
    if !fh.openable then .ok true
    else .ok (!(prepareMimes mimes).any (· = fh.ext))
  | .ptrFile none => .error nilDerefMsg
  | _ => .error "interface conversion: interface {} is not []*multipart.FileHeader".data

/-- Go `isNotUnique`: snake-case the field into the column name and ask the
external store whether the value exists (`.error` models the panic the
source raises on any fault other than `sql.ErrNoRows`, including a
nil/invalid DB configuration in `connectDB`). -/
def isNotUnique (env : Env) (value field table : List Char) : Except (List Char) Bool :=
  env.uniqueCheck value table (snakeCase field)

/-! Section: Date/time layout models (`time.Parse` under the four layouts) -/

/-- Two ASCII digits, as a number. -/
def parse2 (a b : Char) : Option Nat :=
  if isDigitCh a && isDigitCh b then some ((a.toNat - 48) * 10 + (b.toNat - 48)) else none

/-- Gregorian leap-year rule (Go `time`). -/
def isLeap (y : Nat) : Bool := y % 4 = 0 && (y % 100 ≠ 0 || y % 400 = 0)

/-- Days in a month (Go `time.daysIn`). -/
def daysInMonth (y m : Nat) : Nat :=
  if m = 2 then (if isLeap y then 29 else 28)
  else if m = 4 || m = 6 || m = 9 || m = 11 then 30
  else 31

/-- Model of `time.Parse(time.DateOnly, s)` succeeding: layout
`2006-01-02`, fixed-width numbers, month and day in range. -/
def goParseDateOnly (s : List Char) : Bool :=
  match s with
  | [y1, y2, y3, y4, '-', m1, m2, '-', d1, d2] =>
    ([y1, y2, y3, y4].all isDigitCh) &&
      (match parse2 m1 m2, parse2 d1 d2 with
       | some mo, some da =>
         decide (1 ≤ mo) && decide (mo ≤ 12) && decide (1 ≤ da) &&
           decide (da ≤ daysInMonth (digitsVal [y1, y2, y3, y4]) mo)
       | _, _ => false)
  | _ => false

/-- Model of Go `getnum` with `fixed = false` (the layout chunk `"15"`,
`stdHour`): one digit, or two when a second digit follows — the hour of
these layouts may legally be a single digit. -/
def parseHour12 : List Char → Option (Nat × List Char)
  | [] => none
  | [c] => if isDigitCh c then some (c.toNat - 48, []) else none
  | c :: d :: r =>
    if isDigitCh c then
      if isDigitCh d then some ((c.toNat - 48) * 10 + (d.toNat - 48), r)
      else some (c.toNat - 48, d :: r)
    else none

/-- Model of Go `time.Parse`'s stray-fraction tolerance: immediately
after the seconds field, a comma or point followed by at least one
digit is consumed together with the maximal digit run, even though the
layout has no fractional-second field. -/
def stripFrac (s : List Char) : List Char :=
  match s with
  | c :: d :: r =>
    if (c = '.' || c = ',') && isDigitCh d then (d :: r).dropWhile isDigitCh
    else s
  | _ => s

/-- Model of `time.Parse(time.TimeOnly, s)` succeeding: layout
`15:04:05` parsed by the generic parser — a one- or two-digit hour
(`getnum` non-fixed), fixed two-digit minutes and seconds, an optional
stray fractional second, all components in range, end of input. -/
def goParseTimeOnly (s : List Char) : Bool :=
  match parseHour12 s with
  | none => false
  | some (hh, r1) =>
    match r1 with
    | ':' :: m1 :: m2 :: ':' :: s1 :: s2 :: r2 =>
      (match parse2 m1 m2, parse2 s1 s2 with
       | some mm, some ss =>
         decide (hh ≤ 23) && decide (mm ≤ 59) && decide (ss ≤ 59) &&
           (stripFrac r2).isEmpty
       | _, _ => false)
    | _ => false

/-- Model of `time.Parse(time.DateTime, s)` succeeding: layout
`2006-01-02 15:04:05` — fixed-width date, one space, then the same
lenient time as `time.TimeOnly` (one- or two-digit hour, optional
stray fraction). -/
def goParseDateTime (s : List Char) : Bool :=
  goParseDateOnly (s.take 10) && s.getD 10 ' ' = ' ' && goParseTimeOnly (s.drop 11)

/-- An RFC 3339 zone suffix as the generic layout parser accepts it:
`Z`, or a sign with two-digit hours, a colon and two-digit minutes (the
generic parser does not range-check the offset; the strict fast path
does, but its language is contained in the generic one). -/
def rfcZoneOK (z : List Char) : Bool :=
  z = ['Z'] ||
    (match z with
     | [sg, h1, h2, ':', m1, m2] =>
       (sg = '+' || sg = '-') && isDigitCh h1 && isDigitCh h2 &&
         isDigitCh m1 && isDigitCh m2
     | _ => false)

/-- Model of `time.Parse(time.RFC3339, s)` succeeding.  Go tries the
strict `parseRFC3339` fast path first and, when it fails, falls back to
the generic layout parser; everything the fast path accepts the generic
parser accepts too (the latter additionally allows a one-digit hour, a
comma fraction and an unchecked numeric zone), so the union modelled
here is the generic grammar: fixed date, literal `T`, lenient time, an
optional stray fraction, then `Z` or `±hh:mm`. -/
def goParseRFC3339 (s : List Char) : Bool :=
  goParseDateOnly (s.take 10) && s.getD 10 ' ' = 'T' &&
    (match parseHour12 (s.drop 11) with
     | none => false
     | some (hh, r1) =>
       match r1 with
       | ':' :: m1 :: m2 :: ':' :: s1 :: s2 :: r2 =>
         (match parse2 m1 m2, parse2 s1 s2 with
          | some mm, some ss =>
            decide (hh ≤ 23) && decide (mm ≤ 59) && decide (ss ≤ 59) &&
              rfcZoneOK (stripFrac r2)
          | _, _ => false)
       | _ => false)

/-- Go `isNotDatetime`: dispatch on the rule's own name; any other name
panics (the dispatcher only ever passes `rfc3339`, `datetime` and
`dateonly`). -/
def isNotDatetime (v : GoValue) (kind : List Char) : Except (List Char) Bool :=
  if kind = "rfc3339".data then .ok (!goParseRFC3339 (goString v))
  else if kind = "datetime".data then .ok (!goParseDateTime (goString v))
  else if kind = "dateonly".data then .ok (!goParseDateOnly (goString v))
  else if kind = "timeonly".data then .ok (!goParseTimeOnly (goString v))
  else .error ("date format not supported: ".data ++ kind)

/-! Section: `validation.go`: messages, dispatchers and the evaluator -/

/-- Model of the anchored `fileSizeRegex`
`^([1-9]|[1-9][0-9]+)(kb|KB|mb|MB|gb|GB|tb|TB)$` (the two digit
alternatives together are exactly the nonzero-leading digit runs),
returning the two submatch groups. -/
def fileSizeMatch (s : List Char) : Option (List Char × List Char) :=
  let ds := s.takeWhile isDigitCh
  let suffix := s.drop ds.length
  if !ds.isEmpty && isNonzeroDigit (ds.getD 0 ' ') &&
      (["kb", "KB", "mb", "MB", "gb", "GB", "tb", "TB"].map String.data).any (· = suffix)
  then some (ds, suffix)
  else none

/-- Go `getTagAndValue`: scan the record's fields for a `json` tag equal to
the looked-up tag; absent fields yield the zero tag and the invalid
`reflect.Value`. -/
def getTagAndValue (ctx : List GoField) (lookupTag : List Char) : List Char × Option GoValue :=
  match ctx with
  | [] => ([], none)
  | f :: rest =>
    match f.jsonTag with
    | some t => if t = lookupTag then (t, some f.value) else getTagAndValue rest lookupTag
    | none => getTagAndValue rest lookupTag

/-- Go `getMessage`: pick the `fr` table when the instance locale lowers to
`"fr"`, otherwise `en`, and fall back to the raw key when the table has
no entry.  The source's two-level lookup for dotted keys is collapsed
into the environment's single lookup function with the same fallback. -/
def getMessage (env : Env) (locale rule : List Char) : List Char :=
  (env.localeTemplate (if toLowerL locale = "fr".data then "fr".data else "en".data)
    rule).getD rule

/-- Go `setMessage`, reduced to the payload it sends (the channel key is
always the field's `json` tag at every call site): the `empty` rule key
forwards the (empty) custom message; a non-empty custom message wins
verbatim; otherwise the locale template (or raw-key fallback) is
formatted with the field label and at most two rule parameters. -/
def setMessage (env : Env) (locale ruleKey : List Char) (customMsg : MsgVal)
    (field : List Char) (values : List (List Char)) : MsgVal :=
  if ruleKey = "empty".data then customMsg
  else if !customMsg.isEmptyStr then customMsg
  else .strM (goSprintf (getMessage env locale ruleKey) (field :: values.take 2))

/-- Go `generateMessage` (the per-element variant used by slice fields):
as `setMessage` but the `empty` key yields the empty string. -/
def generateMessage (env : Env) (locale ruleKey : List Char) (customMsg : MsgVal)
    (field : List Char) (values : List (List Char)) : MsgVal :=
  if ruleKey = "empty".data then .strM []
  else if !customMsg.isEmptyStr then customMsg
  else .strM (goSprintf (getMessage env locale ruleKey) (field :: values.take 2))

/-- The error map the nested `New(...).ValidateStruct(x)` call of
`validatePointer`/`validateSlice` produces for the pointer targets in
this universe: a `*multipart.FileHeader` is a struct none of whose
fields carries a `json` tag, so validation returns nil; a pointer to a
non-struct trips the struct-pointer guard and returns its fixed error
map.  (Nested user records, spec §4.5, are outside the claims checked
here and outside this value universe.) -/
def nestedValidate : GoValue → Option MsgVal
  | .ptrFile _ => none
  | .ptrOther _ =>
    some (.nestedM [("error".data,
      .strM "validate: a struct pointer is expected as an argument".data)])
  | _ =>
    some (.nestedM [("error".data,
      .strM "validate: a pointer is expected as an argument".data)])

/-- Go `validateStringParams`: the parameterized string rules, split at
the first `:`.  A `from`/`between` parameter without a comma indexes
past the end of the two-way split and panics, exactly as `minMax[1]`
does in the source. -/
def validateStringParams (env : Env) (locale : List Char) (ctx : List GoField)
    (rule cm fField : List Char) (value : GoValue) :
    Except (List Char) (Option MsgVal) :=
  let p := splitN2 ':' rule
  let r0 := p.1
  let r1 := p.2.getD []
  if r0 = "min".data then
    .ok (if isNotMin value r1 then
      some (setMessage env locale "min.string".data (.strM cm) fField [r1]) else none)
  else if r0 = "max".data then
    .ok (if isNotMax value r1 then
      some (setMessage env locale "max.string".data (.strM cm) fField [r1]) else none)
  else if r0 = "equal".data then
    .ok (if isNotEqual value r1 then
      some (setMessage env locale "equal.string".data (.strM cm) fField [r1]) else none)
  else if r0 = "size".data then
    .ok (if isNotSize value r1 then
      some (setMessage env locale "size.string".data (.strM cm) fField [r1]) else none)
  else if r0 = "from".data then
    match splitN2 ',' r1 with
    | (_, none) => .error "runtime error: index out of range [1] with length 1".data
    | (m0, some m1) =>
      .ok (if isNotFrom value m0 m1 then
        some (setMessage env locale "from.string".data (.strM cm) fField [m0, m1])
      else none)
  else if r0 = "between".data then
    match splitN2 ',' r1 with
    | (_, none) => .error "runtime error: index out of range [1] with length 1".data
    | (m0, some m1) =>
      .ok (if isNotBetween value m0 m1 then
        some (setMessage env locale "between.string".data (.strM cm) fField [m0, m1])
      else none)
  else if r0 = "enum".data then
    (isNotEnum value (splitOnCh ',' r1)).map (fun b =>
      if b then some (setMessage env locale "enum".data (.strM cm) fField [r1])
      else none)
  else if r0 = "same".data then
    let tv := getTagAndValue ctx r1
    .ok (if isNotSame value tv.2 then
      some (setMessage env locale "same".data (.strM cm) fField [tv.1]) else none)
  else if r0 = "match".data then
    let tv := getTagAndValue ctx r1
    .ok (if isNotSame value tv.2 then
      some (setMessage env locale "match".data (.strM cm) fField []) else none)
  else if r0 = "unique".data then
    match splitN2 '.' r1 with
    | (t, some c) =>
      (isNotUnique env (goString value) c t).map (fun b =>
        if b then some (setMessage env locale "unique".data (.strM cm) fField [])
        else none)
    | (_, none) => .ok none
  else .ok none

/-- Go `validateString`: the string-kind rule dispatcher.  Note the
date/time case list: `timeonly` is absent, and the `ascii` case emits
the `string` message key. -/
def validateString (env : Env) (locale : List Char) (ctx : List GoField)
    (rule cm fField : List Char) (value : GoValue) :
    Except (List Char) (Option MsgVal) :=
  if rule = "string".data then
    .ok (if isNotString value then
      some (setMessage env locale "string".data (.strM cm) fField []) else none)
  else if rule = "ascii".data then
    .ok (if isNotASCII value then
      some (setMessage env locale "string".data (.strM cm) fField []) else none)
  else if rule = "alpha".data then
    .ok (if isNotAlpha value then
      some (setMessage env locale "alpha".data (.strM cm) fField []) else none)
  else if rule = "numeric".data then
    .ok (if isNotNumeric value then
      some (setMessage env locale "numeric".data (.strM cm) fField []) else none)
  else if rule = "alpha_numeric".data then
    .ok (if isNotAlphanumeric value then
      some (setMessage env locale "alpha_numeric".data (.strM cm) fField []) else none)
  else if rule = "email".data then
    .ok (if isNotEmail env value then
      some (setMessage env locale "email".data (.strM cm) fField []) else none)
  else if rule = "rfc3339".data || rule = "datetime".data || rule = "dateonly".data then
    (isNotDatetime value rule).map (fun b =>
      if b then
        some (setMessage env locale ("date.".data ++ rule) (.strM cm) fField [])
      else none)
  else if rule = "phone".data then
    .ok (if isNotPhone value then
      some (setMessage env locale "phone".data (.strM cm) fField []) else none)
  else if rule = "phone_with_code".data then
    .ok (if isNotPhoneWithCode value then
      some (setMessage env locale "phone_with_code".data (.strM cm) fField []) else none)
  else if rule = "username".data then
    .ok (if isNotUsername env value then
      some (setMessage env locale "username".data (.strM cm) fField []) else none)
  else if rule = "gh_card".data then
    .ok (if isNotGHCard value then
      some (setMessage env locale "gh_card".data (.strM cm) fField []) else none)
  else if rule = "gh_gps".data then
    .ok (if isNotGHGPS value then
      some (setMessage env locale "gh_gps".data (.strM cm) fField []) else none)
  else if containsCh ':' rule then
    validateStringParams env locale ctx rule cm fField value
  else .ok none

/-- Go `validateNumericParams`: the parameterized rules shared by the
integer, unsigned and float kinds. -/
def validateNumericParams (env : Env) (locale : List Char) (ctx : List GoField)
    (rule cm fField : List Char) (value : GoValue) :
    Except (List Char) (Option MsgVal) :=
  let p := splitN2 ':' rule
  let r0 := p.1
  let r1 := p.2.getD []
  if r0 = "min".data || r0 = "max".data || r0 = "equal".data || r0 = "size".data then
    if r0 = "min".data && isNotMin value r1 then
      .ok (some (setMessage env locale "min.numeric".data (.strM cm) fField [r1]))
    else if r0 = "max".data && isNotMax value r1 then
      .ok (some (setMessage env locale "max.numeric".data (.strM cm) fField [r1]))
    else if r0 = "equal".data && isNotEqual value r1 then
      .ok (some (setMessage env locale "equal.numeric".data (.strM cm) fField [r1]))
    else if r0 = "size".data && isNotSize value r1 then
      .ok (some (setMessage env locale "size.numeric".data (.strM cm) fField [r1]))
    else .ok none
  else if r0 = "from".data || r0 = "between".data then
    match splitN2 ',' r1 with
    | (_, none) => .error "runtime error: index out of range [1] with length 1".data
    | (m0, some m1) =>
      if r0 = "from".data && isNotFrom value m0 m1 then
        .ok (some (setMessage env locale "from.numeric".data (.strM cm) fField [m0, m1]))
      else if r0 = "between".data && isNotBetween value m0 m1 then
        .ok (some (setMessage env locale "between.numeric".data (.strM cm) fField [m0, m1]))
      else .ok none
  else if r0 = "enum".data then
    (isNotEnum value (splitOnCh ',' r1)).map (fun b =>
      if b then some (setMessage env locale "enum".data (.strM cm) fField [r1])
      else none)
  else if r0 = "same".data then
    let tv := getTagAndValue ctx r1
    .ok (if isNotSame value tv.2 then
      some (setMessage env locale "same".data (.strM cm) fField [tv.1]) else none)
  else if r0 = "match".data then
    let tv := getTagAndValue ctx r1
    .ok (if isNotSame value tv.2 then
      some (setMessage env locale "match".data (.strM cm) fField []) else none)
  else .ok none

/-- Go `validateNumeric`: the integer/unsigned-kind rule dispatcher. -/
def validateNumeric (env : Env) (locale : List Char) (ctx : List GoField)
    (rule cm fField : List Char) (value : GoValue) :
    Except (List Char) (Option MsgVal) :=
  if rule = "int".data then
    .ok (if isNotInt value then
      some (setMessage env locale "int".data (.strM cm) fField []) else none)
  else if rule = "uint".data then
    .ok (if isNotUint value then
      some (setMessage env locale "uint".data (.strM cm) fField []) else none)
  else if containsCh ':' rule then
    validateNumericParams env locale ctx rule cm fField value
  else .ok none

/-- Go `validateFloat`: the float-kind rule dispatcher. -/
def validateFloat (env : Env) (locale : List Char) (ctx : List GoField)
    (rule cm fField : List Char) (value : GoValue) :
    Except (List Char) (Option MsgVal) :=
  if rule = "float".data then
    .ok (if isNotFloat value then
      some (setMessage env locale "float".data (.strM cm) fField []) else none)
  else if containsCh ':' rule then
    validateNumericParams env locale ctx rule cm fField value
  else .ok none

/-- Go `validateSlice`: the sequence-kind dispatcher — `slice:min:`/
`slice:max:` length bounds (the first two parts of a three-way colon
split after the leading token), then the per-element pass.  String
elements are checked only against the `email` rule; pointer elements
fall through to the nested `ValidateStruct` call (the source's
`[]*multipart.FileHeader` assertion on an element can only hold for an
interface-typed element, which is outside this universe). -/
def validateSlice (env : Env) (locale : List Char) (rule cm fField : List Char)
    (elems : List GoValue) : Except (List Char) (Option MsgVal) :=
  let boundMsg : Option MsgVal :=
    if startsWithL "slice".data rule && containsCh ':' rule then
      match (splitN2 ':' rule).2 with
      | none => none
      | some r =>
        match splitN2 ':' r with
        | (_, none) => none
        | (k, some bound) =>
          if k = "min".data && isNotMin (.sliceV elems) bound then
            some (setMessage env locale "min.slice".data (.strM cm) fField [bound])
          else if k = "max".data && isNotMax (.sliceV elems) bound then
            some (setMessage env locale "max.slice".data (.strM cm) fField [bound])
          else none
    else none
  match boundMsg with
  | some m => .ok (some m)
  | none =>
    let errMsgs :=
      elems.enum.foldr (fun (p : Nat × GoValue) acc =>
        let fieldName := fField ++ " (".data ++ natDec (p.1 + 1) ++ [')']
        match p.2 with
        | .strV _ =>
          if rule = "email".data && isNotEmail env p.2 then
            generateMessage env locale "email".data (.strM cm) fieldName [] :: acc
          else acc
        | .ptrFile _ | .ptrOther _ =>
          match nestedValidate p.2 with
          | some m => m :: acc
          | none => acc
        | _ => acc) []
    if errMsgs.isEmpty then .ok none
    else .ok (some (setMessage env locale [] (.listM errMsgs) fField []))

/-- Go `validatePointer`: the optional/reference-kind dispatcher — file
rules for `*multipart.FileHeader` values, otherwise the nested
`ValidateStruct` call whose non-nil result becomes the outcome.  The
size limit `kilobyte/megabyte/gigabyte * size64` is an `int64` product
in the source and wraps on overflow, modelled by `int64Wrap`. -/
def validatePointer (env : Env) (locale rule cm fField : List Char) (value : GoValue) :
    Except (List Char) (Option MsgVal) :=
  match value with
  | .ptrFile fh? =>
    if rule = "image".data then
      (isNotMimes value "jpg,jpeg,png,webp".data).map (fun b =>
        if b then some (setMessage env locale "image".data (.strM cm) fField [])
        else none)
    else if rule = "file".data then
      (isNotFile value).map (fun b =>
        if b then some (setMessage env locale "file".data (.strM cm) fField [])
        else none)
    else if containsCh ':' rule then
      let p := splitN2 ':' rule
      let r0 := p.1
      let r1 := p.2.getD []
      if r0 = "image".data then
        (isNotMimes value r1).map (fun b =>
          if b then some (setMessage env locale "image_type".data (.strM cm) fField [r1])
          else none)
      else if r0 = "file".data then
        (isNotMimes value r1).map (fun b =>
          if b then some (setMessage env locale "file_type".data (.strM cm) fField [r1])
          else none)
      else if r0 = "mimes".data then
        (isNotMimes value r1).map (fun b =>
          if b then some (setMessage env locale "mimes".data (.strM cm) fField [r1])
          else none)
      else if r0 = "size".data then
        match fileSizeMatch r1 with
        | some (size, symbol) =>
          match fh? with
          | some fh =>
            let size64 := goParseIntL size
            let lk : Int × List Char :=
              if toLowerL symbol = "kb".data then
                (int64Wrap (1024 * size64), "size.file_kb".data)
              else if toLowerL symbol = "mb".data then
                (int64Wrap (1024 * 1024 * size64), "size.file_mb".data)
              else if toLowerL symbol = "gb".data then
                (int64Wrap (1024 * 1024 * 1024 * size64), "size.file_gb".data)
              else (0, [])
            if lk.1 > 0 && fh.size > lk.1 then
              .ok (some (setMessage env locale lk.2 (.strM cm) fField [size]))
            else .ok none
          | none => .error nilDerefMsg
        | none => .ok none
      else .ok none
    else .ok none
  | _ =>
    match nestedValidate value with
    | some m => .ok (some (setMessage env locale [] m fField []))
    | none => .ok none

/-- Whether a value is of boolean kind (the `required` special case). -/
def isBoolV : GoValue → Bool
  | .boolV _ => true
  | _ => false

/-- The kind switch of `validateStruct`'s rule loop: route a non-empty
value to its kind's dispatcher (boolean kind has no case and no rule
ever fires for it). -/
def dispatchKind (env : Env) (locale : List Char) (ctx : List GoField)
    (rule cm fField : List Char) : GoValue → Except (List Char) (Option MsgVal)
  | v@(.strV _) => validateString env locale ctx rule cm fField v
  | v@(.intV _) => validateNumeric env locale ctx rule cm fField v
  | v@(.uintV _) => validateNumeric env locale ctx rule cm fField v
  | v@(.floatV _) => validateFloat env locale ctx rule cm fField v
  | .sliceV elems => validateSlice env locale rule cm fField elems
  | v@(.ptrFile _) => validatePointer env locale rule cm fField v
  | v@(.ptrOther _) => validatePointer env locale rule cm fField v
  | .boolV _ => .ok none

/-- The rule loop of `validateStruct`: walk the chain tokens in order;
a `required` token on an empty value ends with the required (or boolean)
message; dispatched rules end with their violation message
(first-failure-wins); an exhausted chain emits the `empty` message,
whose payload is the empty string. -/
def ruleLoop (env : Env) (locale : List Char) (ctx : List GoField)
    (fField : List Char) (value : GoValue) :
    List (List Char) → Except (List Char) MsgVal
  | [] => .ok (setMessage env locale "empty".data (.strM []) fField [])
  | tok :: rest =>
    let rc := getRuleAndMsg tok
    if rc.1 = "required".data && isEmpty value then
      if isBoolV value then
        .ok (setMessage env locale "bool".data (.strM rc.2) fField [])
      else
        .ok (setMessage env locale "required".data (.strM rc.2) fField [])
    else if !isEmpty value then
      match dispatchKind env locale ctx rc.1 rc.2 fField value with
      | .error d => .error d
      | .ok (some m) => .ok m
      | .ok none => ruleLoop env locale ctx fField value rest
    else ruleLoop env locale ctx fField value rest

/-- Go `validateStruct` for one field: split the `validate` tag into chain
tokens and run the rule loop; the channel key is the field's `json`
tag. -/
def validateStructField (env : Env) (locale : List Char) (ctx : List GoField)
    (f : GoField) : Except (List Char) (List Char × MsgVal) :=
  let jsonTag := f.jsonTag.getD []
  (ruleLoop env locale ctx (formatFieldName jsonTag) f.value
    (splitOnCh '|' (f.validateTag.getD []))).map (fun m => (jsonTag, m))

/-- One field's task as `structValidator` launches it: the deferred
`recover` converts a panic into the field's own message
`"validation panic: %v"`. -/
def fieldTask (env : Env) (locale : List Char) (ctx : List GoField)
    (f : GoField) : List Char × MsgVal :=
  match validateStructField env locale ctx f with
  | .ok m => m
  | .error d => (f.jsonTag.getD [], .strM ("validation panic: ".data ++ d))

/-- Go `structValidator`: fan out one task per field carrying both a
`json` and a `validate` tag, join, and keep the non-empty payloads.
The channel delivers messages in scheduler order; the model fixes field
order, which is irrelevant to the resulting map (spec §3: the report is
a lookup structure). -/
def structValidator (env : Env) (locale : List Char) (flds : List GoField) :
    List (List Char × MsgVal) :=
  ((flds.filter GoField.eligible).map (fieldTask env locale flds)).filter
    (fun m => !m.2.isEmptyStr)

/-- Go `ValidateStruct` on a pointer to a struct with the given fields:
the collected error map when it is non-empty, Go `nil` (here `none`)
otherwise.  (The non-pointer and non-struct guard paths of the method
return fixed error maps and are outside the claims.) -/
def ValidateStructGo (env : Env) (locale : List Char) (flds : List GoField) :
    Option (List (List Char × MsgVal)) :=
  let errMsg := structValidator env locale flds
  if !errMsg.isEmpty then some errMsg else none

/-- Whether a field's task ended with the empty payload — the `empty`
message a chain emits when every rule was walked without a violation
and without a fault.  This is what "the field passes" means to the
aggregator, which drops exactly these messages. -/
def fieldPasses (env : Env) (locale : List Char) (flds : List GoField)
    (f : GoField) : Bool :=
  ((fieldTask env locale flds f).2).isEmptyStr

/-! Section: Theorems -/

/-- Splitting at the first separator recovers the two halves when the
first half is separator-free. -/
theorem splitN2_append_sep (sep : Char) (a b : List Char)
    (h : containsCh sep a = false) : splitN2 sep (a ++ sep :: b) = (a, some b) := by
  induction a with
  | nil => simp [splitN2]
  | cons c t ih =>
    simp only [containsCh, List.any_cons, Bool.or_eq_false_iff,
      decide_eq_false_iff_not] at h
    have ht : containsCh sep t = false := by
      simp only [containsCh]
      exact h.2
    simp [splitN2, h.1, ih ht]

/-- C5 counterexample: the claim asserts all four date/time rules
report a violation iff the value fails to parse under their layout; but
the string `"zz"` fails the `timeonly` layout and the `timeonly` rule
still reports nothing (the dispatcher has no `timeonly` case). -/
theorem claim5_counterexample :
    validateString env0 "en".data [] "timeonly".data [] "t".data (.strV "zz".data) =
        .ok none ∧
      goParseTimeOnly "zz".data = false :=
  ⟨rfl, rfl⟩

/-- C5 (amended): for a string value, the `rfc3339`, `datetime` and
`dateonly` rules pass through the dispatcher with no violation exactly
when the value parses under the rule's layout; the `timeonly` rule is
never dispatched for string fields and reports nothing for any value. -/
theorem claim5_datetime_rules (env : Env) (locale : List Char) (ctx : List GoField)
    (cm fField s : List Char) :
    (validateString env locale ctx "rfc3339".data cm fField (.strV s) = .ok none ↔
        goParseRFC3339 s = true) ∧
      (validateString env locale ctx "datetime".data cm fField (.strV s) = .ok none ↔
        goParseDateTime s = true) ∧
      (validateString env locale ctx "dateonly".data cm fField (.strV s) = .ok none ↔
        goParseDateOnly s = true) ∧
      validateString env locale ctx "timeonly".data cm fField (.strV s) = .ok none := by
  refine ⟨?_, ?_, ?_, rfl⟩
  · have h : validateString env locale ctx "rfc3339".data cm fField (.strV s) =
        (Except.ok (!goParseRFC3339 s)).map (fun b =>
          if b then
            some (setMessage env locale ("date.".data ++ "rfc3339".data) (.strM cm) fField [])
          else none) := rfl
    rw [h]; cases goParseRFC3339 s <;> simp [Except.map]
  · have h : validateString env locale ctx "datetime".data cm fField (.strV s) =
        (Except.ok (!goParseDateTime s)).map (fun b =>
          if b then
            some (setMessage env locale ("date.".data ++ "datetime".data) (.strM cm) fField [])
          else none) := rfl
    rw [h]; cases goParseDateTime s <;> simp [Except.map]
  · have h : validateString env locale ctx "dateonly".data cm fField (.strV s) =
        (Except.ok (!goParseDateOnly s)).map (fun b =>
          if b then
            some (setMessage env locale ("date.".data ++ "dateonly".data) (.strM cm) fField [])
          else none) := rfl
    rw [h]; cases goParseDateOnly s <;> simp [Except.map]

/-- C6 counterexample: the claim asserts the `ascii` rule reports a
violation iff the value is not composed entirely of ASCII characters;
but `"aé"` contains a non-ASCII character and the rule still reports
nothing — the source's pattern `[\x00-\x7F]+` is unanchored, so one
ASCII character anywhere satisfies it. -/
theorem claim6_counterexample :
    validateString env0 "en".data [] "ascii".data [] "t".data (.strV ['a', 'é']) =
        .ok none ∧
      (['a', 'é'].all (fun c => decide (c.toNat ≤ 127))) = false :=
  ⟨rfl, rfl⟩

/-- C6 (amended): for a string value, the `ascii` rule reports a
violation iff the value contains *no* ASCII character at all (the
unanchored pattern `[\x00-\x7F]+` matches as soon as any single
character is ASCII); it passes whenever at least one character is
ASCII. -/
theorem claim6_ascii_rule (env : Env) (locale : List Char) (ctx : List GoField)
    (cm fField s : List Char) :
    validateString env locale ctx "ascii".data cm fField (.strV s) = .ok none ↔
      s.any (fun c => decide (c.toNat ≤ 127)) = true := by
  have h : validateString env locale ctx "ascii".data cm fField (.strV s) =
      .ok (if !(s.any (fun c => decide (c.toNat ≤ 127))) then
        some (setMessage env locale "string".data (.strM cm) fField []) else none) := rfl
  rw [h]; cases s.any (fun c => decide (c.toNat ≤ 127)) <;> simp

/-- C7: the dispatcher explicitly routes `enum` for integer kinds, but
`isNotEnum` asserts the value to a string, so for an integer field every
`enum` rule panics; the recovered task renders the fault as the field's
message instead of an enum outcome.  Here the value `1` does equal a
token of `enum:1,2`, yet the report carries the conversion panic. -/
theorem claim7_numeric_enum_panics :
    structValidator env0 "en".data
        [⟨some "role".data, some "enum:1,2".data, .intV 1⟩] =
      [("role".data,
        .strM "validation panic: interface conversion: interface {} is int64, not string".data)] :=
  rfl

/-- A digit run contains no non-digit character. -/
theorem containsCh_eq_false_of_digits (sep : Char) (s : List Char)
    (h : s.all isDigitCh = true) (hs : isDigitCh sep = false) :
    containsCh sep s = false := by
  simp only [containsCh, List.any_eq_false, decide_eq_false_iff_not]
  intro c hc he
  have he' : c = sep := of_decide_eq_true he
  subst he'
  rw [List.all_eq_true] at h
  rw [h c hc] at hs
  cases hs

/-- Splitting at an absent separator returns the whole string. -/
theorem splitN2_of_not_contains (sep : Char) (s : List Char)
    (h : containsCh sep s = false) : splitN2 sep s = (s, none) := by
  induction s with
  | nil => rfl
  | cons c t ih =>
    simp only [containsCh, List.any_cons, Bool.or_eq_false_iff,
      decide_eq_false_iff_not] at h
    have ht : containsCh sep t = false := by
      simp only [containsCh]
      exact h.2
    simp [splitN2, h.1, ih ht]

/-- A digit run holds no exponent marker, so `splitExpo` returns it
whole. -/
theorem splitExpo_of_digits (s : List Char) (h : s.all isDigitCh = true) :
    splitExpo s = (s, none) := by
  induction s with
  | nil => rfl
  | cons c t ih =>
    simp only [List.all_cons, Bool.and_eq_true] at h
    have he : ¬(c = 'e' || c = 'E') = true := by
      intro hor
      rcases Bool.or_eq_true_iff.mp hor with h1 | h1
      · rw [decide_eq_true_eq.mp h1] at h
        cases h.1
      · rw [decide_eq_true_eq.mp h1] at h
        cases h.1
    simp [splitExpo, he, ih h.2]

/-- On a plain nonempty digit run, the `ParseFloat` model is exactly
the run's numeric value. -/
theorem goParseFloatL_digits (ds : List Char) (h : ds.all isDigitCh = true)
    (hne : ¬ds = []) : goParseFloatL ds = (digitsVal ds : ℚ) := by
  have hE : splitExpo ds = (ds, none) := splitExpo_of_digits ds h
  have hdot : containsCh '.' ds = false :=
    containsCh_eq_false_of_digits '.' ds h (by decide)
  have hsp : splitN2 '.' ds = (ds, none) := splitN2_of_not_contains '.' ds hdot
  have hbody : goFloatBody ds = (digitsVal ds : ℚ) := by
    have hmk : goMantissaOK ds = true := by
      unfold goMantissaOK
      rw [hsp]
      simp [h, hne]
    have hform : goFloatBody ds =
        (match splitExpo ds with
         | (m, none) => if goMantissaOK m then mantissaVal m else 0
         | (m, some e) =>
           if goMantissaOK m && signedDigitsOK e then
             mantissaVal m * (10 : ℚ) ^ (signedDigitsVal e)
           else 0) := rfl
    rw [hform, hE]
    show (if goMantissaOK ds = true then mantissaVal ds else 0) = (digitsVal ds : ℚ)
    rw [if_pos hmk]
    have hmv : mantissaVal ds =
        (match splitN2 '.' ds with
         | (a, none) => (digitsVal a : ℚ)
         | (a, some b) =>
           (digitsVal a : ℚ) + (digitsVal b : ℚ) / (10 : ℚ) ^ b.length) := rfl
    rw [hmv, hsp]
  cases ds with
  | nil => exact absurd rfl hne
  | cons c t =>
    have hc : isDigitCh c = true := by
      rw [List.all_cons, Bool.and_eq_true] at h
      exact h.1
    have hp : ¬(c = '+') := by
      intro he
      rw [he] at hc
      cases hc
    have hm : ¬(c = '-') := by
      intro he
      rw [he] at hc
      cases hc
    have hform2 : goParseFloatL (c :: t) =
        (if c = '+' then goFloatBody t
         else if c = '-' then -(goFloatBody t)
         else goFloatBody (c :: t)) := rfl
    rw [hform2, if_neg hp, if_neg hm]
    exact hbody

/-- C3: for integer-kind, unsigned-kind, string-kind (measured by
length) and float-kind values, `between:min,max` passes the dispatcher
with no violation iff the value is *strictly* between the parsed
bounds, while `from:min,max` passes iff the value lies in the *closed*
interval — so `between:1,5` rejects 1 and 5 while `from:1,5` accepts
them.  The float-kind parts are stated for bounds that are plain digit
runs below `2^53`, the range on which the rational model and Go's
`float64` arithmetic agree exactly (`strconv.ParseFloat` is bit-exact
on such integers); the integer, unsigned and length parts hold for
arbitrary bound strings, as `ParseInt`/`ParseUint`/`Atoi` are modelled
in full (syntax error to 0, range error clamped). -/
theorem claim3_between_exclusive_from_inclusive
    (env : Env) (locale : List Char) (ctx : List GoField) (cm fField : List Char)
    (a b : List Char) (ha : containsCh ',' a = false)
    (i : Int) (n : Nat) (s : List Char) (q : ℚ) :
    (validateNumericParams env locale ctx ("between:".data ++ a ++ ',' :: b) cm fField
        (.intV i) = .ok none ↔ (goParseIntL a < i ∧ i < goParseIntL b)) ∧
    (validateNumericParams env locale ctx ("between:".data ++ a ++ ',' :: b) cm fField
        (.uintV n) = .ok none ↔ (goParseUintL a < n ∧ n < goParseUintL b)) ∧
    (validateStringParams env locale ctx ("between:".data ++ a ++ ',' :: b) cm fField
        (.strV s) = .ok none ↔
      (goAtoiL a < (byteLenL s : Int) ∧ (byteLenL s : Int) < goAtoiL b)) ∧
    (∀ af bf : List Char, af.all isDigitCh = true → ¬af = [] →
      bf.all isDigitCh = true → ¬bf = [] →
      digitsVal af < 2 ^ 53 → digitsVal bf < 2 ^ 53 →
      (validateNumericParams env locale ctx ("between:".data ++ af ++ ',' :: bf) cm fField
          (.floatV q) = .ok none ↔
        ((digitsVal af : ℚ) < q ∧ q < (digitsVal bf : ℚ)))) ∧
    (validateNumericParams env locale ctx ("from:".data ++ a ++ ',' :: b) cm fField
        (.intV i) = .ok none ↔ (goParseIntL a ≤ i ∧ i ≤ goParseIntL b)) ∧
    (validateNumericParams env locale ctx ("from:".data ++ a ++ ',' :: b) cm fField
        (.uintV n) = .ok none ↔ (goParseUintL a ≤ n ∧ n ≤ goParseUintL b)) ∧
    (validateStringParams env locale ctx ("from:".data ++ a ++ ',' :: b) cm fField
        (.strV s) = .ok none ↔
      (goAtoiL a ≤ (byteLenL s : Int) ∧ (byteLenL s : Int) ≤ goAtoiL b)) ∧
    (∀ af bf : List Char, af.all isDigitCh = true → ¬af = [] →
      bf.all isDigitCh = true → ¬bf = [] →
      digitsVal af < 2 ^ 53 → digitsVal bf < 2 ^ 53 →
      (validateNumericParams env locale ctx ("from:".data ++ af ++ ',' :: bf) cm fField
          (.floatV q) = .ok none ↔
        ((digitsVal af : ℚ) ≤ q ∧ q ≤ (digitsVal bf : ℚ)))) := by
  have hsplit := splitN2_append_sep ',' a b ha
  refine ⟨?_, ?_, ?_, ?_, ?_, ?_, ?_, ?_⟩
  · have hform : validateNumericParams env locale ctx ("between:".data ++ a ++ ',' :: b)
        cm fField (.intV i) =
        (match splitN2 ',' (a ++ ',' :: b) with
         | (_, none) => Except.error "runtime error: index out of range [1] with length 1".data
         | (m0, some m1) =>
           if isNotBetween (.intV i) m0 m1 then
             Except.ok (some (setMessage env locale "between.numeric".data (.strM cm)
               fField [m0, m1]))
           else Except.ok none) := rfl
    rw [hform, hsplit]
    by_cases hc : goParseIntL a < i ∧ i < goParseIntL b
    · have hx : isNotBetween (.intV i) a b = false := by
        simp only [isNotBetween, Bool.or_eq_false_iff, decide_eq_false_iff_not]
        omega
      simp [hx, hc]
    · have hx : isNotBetween (.intV i) a b = true := by
        simp only [isNotBetween, Bool.or_eq_true, decide_eq_true_eq]
        omega
      simp [hx, hc]
  · have hform : validateNumericParams env locale ctx ("between:".data ++ a ++ ',' :: b)
        cm fField (.uintV n) =
        (match splitN2 ',' (a ++ ',' :: b) with
         | (_, none) => Except.error "runtime error: index out of range [1] with length 1".data
         | (m0, some m1) =>
           if isNotBetween (.uintV n) m0 m1 then
             Except.ok (some (setMessage env locale "between.numeric".data (.strM cm)
               fField [m0, m1]))
           else Except.ok none) := rfl
    rw [hform, hsplit]
    by_cases hc : goParseUintL a < n ∧ n < goParseUintL b
    · have hx : isNotBetween (.uintV n) a b = false := by
        simp only [isNotBetween, Bool.or_eq_false_iff, decide_eq_false_iff_not]
        omega
      simp [hx, hc]
    · have hx : isNotBetween (.uintV n) a b = true := by
        simp only [isNotBetween, Bool.or_eq_true, decide_eq_true_eq]
        omega
      simp [hx, hc]
  · have hform : validateStringParams env locale ctx ("between:".data ++ a ++ ',' :: b)
        cm fField (.strV s) =
        (match splitN2 ',' (a ++ ',' :: b) with
         | (_, none) => Except.error "runtime error: index out of range [1] with length 1".data
         | (m0, some m1) =>
           Except.ok (if isNotBetween (.strV s) m0 m1 then
             some (setMessage env locale "between.string".data (.strM cm)
               fField [m0, m1])
           else none)) := rfl
    rw [hform, hsplit]
    by_cases hc : goAtoiL a < (byteLenL s : Int) ∧ (byteLenL s : Int) < goAtoiL b
    · have hx : isNotBetween (.strV s) a b = false := by
        simp only [isNotBetween, goLenV, goAtoiL, Bool.or_eq_false_iff,
          decide_eq_false_iff_not]
        simp only [goAtoiL] at hc
        omega
      simp [hx, hc]
    · have hx : isNotBetween (.strV s) a b = true := by
        simp only [isNotBetween, goLenV, goAtoiL, Bool.or_eq_true, decide_eq_true_eq]
        simp only [goAtoiL] at hc
        omega
      simp [hx, hc]
  · intro af bf haf hnaf hbf hnbf h53a h53b
    have hcomma : containsCh ',' af = false :=
      containsCh_eq_false_of_digits ',' af haf (by decide)
    have hs2 := splitN2_append_sep ',' af bf hcomma
    have hga : goParseFloatL af = (digitsVal af : ℚ) := goParseFloatL_digits af haf hnaf
    have hgb : goParseFloatL bf = (digitsVal bf : ℚ) := goParseFloatL_digits bf hbf hnbf
    have hform : validateNumericParams env locale ctx ("between:".data ++ af ++ ',' :: bf)
        cm fField (.floatV q) =
        (match splitN2 ',' (af ++ ',' :: bf) with
         | (_, none) => Except.error "runtime error: index out of range [1] with length 1".data
         | (m0, some m1) =>
           if isNotBetween (.floatV q) m0 m1 then
             Except.ok (some (setMessage env locale "between.numeric".data (.strM cm)
               fField [m0, m1]))
           else Except.ok none) := rfl
    rw [hform, hs2]
    by_cases hc : (digitsVal af : ℚ) < q ∧ q < (digitsVal bf : ℚ)
    · have hx : isNotBetween (.floatV q) af bf = false := by
        simp only [isNotBetween, hga, hgb, Bool.not_eq_false', Bool.and_eq_true,
          decide_eq_true_eq, gt_iff_lt]
        exact hc
      simp [hx, hc]
    · have hx : isNotBetween (.floatV q) af bf = true := by
        simp only [isNotBetween, hga, hgb, Bool.not_eq_true', Bool.and_eq_false_iff,
          decide_eq_false_iff_not, not_lt, gt_iff_lt]
        rcases not_and_or.mp hc with h | h
        · exact Or.inl (not_lt.mp h)
        · exact Or.inr (not_lt.mp h)
      simp [hx, hc]
  · have hform : validateNumericParams env locale ctx ("from:".data ++ a ++ ',' :: b)
        cm fField (.intV i) =
        (match splitN2 ',' (a ++ ',' :: b) with
         | (_, none) => Except.error "runtime error: index out of range [1] with length 1".data
         | (m0, some m1) =>
           if isNotFrom (.intV i) m0 m1 then
             Except.ok (some (setMessage env locale "from.numeric".data (.strM cm)
               fField [m0, m1]))
           else Except.ok none) := rfl
    rw [hform, hsplit]
    by_cases hc : goParseIntL a ≤ i ∧ i ≤ goParseIntL b
    · have hx : isNotFrom (.intV i) a b = false := by
        simp only [isNotFrom, Bool.or_eq_false_iff, decide_eq_false_iff_not]
        omega
      simp [hx, hc]
    · have hx : isNotFrom (.intV i) a b = true := by
        simp only [isNotFrom, Bool.or_eq_true, decide_eq_true_eq]
        omega
      simp [hx, hc]
  · have hform : validateNumericParams env locale ctx ("from:".data ++ a ++ ',' :: b)
        cm fField (.uintV n) =
        (match splitN2 ',' (a ++ ',' :: b) with
         | (_, none) => Except.error "runtime error: index out of range [1] with length 1".data
         | (m0, some m1) =>
           if isNotFrom (.uintV n) m0 m1 then
             Except.ok (some (setMessage env locale "from.numeric".data (.strM cm)
               fField [m0, m1]))
           else Except.ok none) := rfl
    rw [hform, hsplit]
    by_cases hc : goParseUintL a ≤ n ∧ n ≤ goParseUintL b
    · have hx : isNotFrom (.uintV n) a b = false := by
        simp only [isNotFrom, Bool.or_eq_false_iff, decide_eq_false_iff_not]
        omega
      simp [hx, hc]
    · have hx : isNotFrom (.uintV n) a b = true := by
        simp only [isNotFrom, Bool.or_eq_true, decide_eq_true_eq]
        omega
      simp [hx, hc]
  · have hform : validateStringParams env locale ctx ("from:".data ++ a ++ ',' :: b)
        cm fField (.strV s) =
        (match splitN2 ',' (a ++ ',' :: b) with
         | (_, none) => Except.error "runtime error: index out of range [1] with length 1".data
         | (m0, some m1) =>
           Except.ok (if isNotFrom (.strV s) m0 m1 then
             some (setMessage env locale "from.string".data (.strM cm)
               fField [m0, m1])
           else none)) := rfl
    rw [hform, hsplit]
    by_cases hc : goAtoiL a ≤ (byteLenL s : Int) ∧ (byteLenL s : Int) ≤ goAtoiL b
    · have hx : isNotFrom (.strV s) a b = false := by
        simp only [isNotFrom, goLenV, goAtoiL, Bool.or_eq_false_iff,
          decide_eq_false_iff_not]
        simp only [goAtoiL] at hc
        omega
      simp [hx, hc]
    · have hx : isNotFrom (.strV s) a b = true := by
        simp only [isNotFrom, goLenV, goAtoiL, Bool.or_eq_true, decide_eq_true_eq]
        simp only [goAtoiL] at hc
        omega
      simp [hx, hc]
  · intro af bf haf hnaf hbf hnbf h53a h53b
    have hcomma : containsCh ',' af = false :=
      containsCh_eq_false_of_digits ',' af haf (by decide)
    have hs2 := splitN2_append_sep ',' af bf hcomma
    have hga : goParseFloatL af = (digitsVal af : ℚ) := goParseFloatL_digits af haf hnaf
    have hgb : goParseFloatL bf = (digitsVal bf : ℚ) := goParseFloatL_digits bf hbf hnbf
    have hform : validateNumericParams env locale ctx ("from:".data ++ af ++ ',' :: bf)
        cm fField (.floatV q) =
        (match splitN2 ',' (af ++ ',' :: bf) with
         | (_, none) => Except.error "runtime error: index out of range [1] with length 1".data
         | (m0, some m1) =>
           if isNotFrom (.floatV q) m0 m1 then
             Except.ok (some (setMessage env locale "from.numeric".data (.strM cm)
               fField [m0, m1]))
           else Except.ok none) := rfl
    rw [hform, hs2]
    by_cases hc : (digitsVal af : ℚ) ≤ q ∧ q ≤ (digitsVal bf : ℚ)
    · have hx : isNotFrom (.floatV q) af bf = false := by
        simp only [isNotFrom, hga, hgb, Bool.not_eq_false', Bool.and_eq_true,
          decide_eq_true_eq, ge_iff_le]
        exact hc
      simp [hx, hc]
    · have hx : isNotFrom (.floatV q) af bf = true := by
        simp only [isNotFrom, hga, hgb, Bool.not_eq_true', Bool.and_eq_false_iff,
          decide_eq_false_iff_not, not_le, ge_iff_le]
        rcases not_and_or.mp hc with h | h
        · exact Or.inl (not_le.mp h)
        · exact Or.inr (not_le.mp h)
      simp [hx, hc]

/-- C3 witness: `between:1,5` and `from:1,5` at the boundary value 1 for
an integer field — `between` reports a violation, `from` passes. -/
theorem claim3_witness :
    containsCh ',' "1".data = false ∧
      (validateNumericParams env0 "en".data [] ("between:".data ++ "1".data ++ ',' :: "5".data)
          [] "age".data (.intV 1) = .ok none ↔
        (goParseIntL "1".data < 1 ∧ (1 : Int) < goParseIntL "5".data)) ∧
      (validateNumericParams env0 "en".data [] ("from:".data ++ "1".data ++ ',' :: "5".data)
          [] "age".data (.intV 1) = .ok none ↔
        (goParseIntL "1".data ≤ 1 ∧ (1 : Int) ≤ goParseIntL "5".data)) :=
  ⟨by decide,
    (claim3_between_exclusive_from_inclusive env0 "en".data [] [] "age".data
      "1".data "5".data (by decide) 1 0 [] 0).1,
    (claim3_between_exclusive_from_inclusive env0 "en".data [] [] "age".data
      "1".data "5".data (by decide) 1 0 [] 0).2.2.2.2.1⟩

/-- List fact: `takeWhile` runs through a wholly-satisfying first half. -/
theorem takeWhile_append_all {α : Type} (p : α → Bool) (l1 l2 : List α)
    (h : l1.all p = true) : (l1 ++ l2).takeWhile p = l1 ++ l2.takeWhile p := by
  induction l1 with
  | nil => simp
  | cons c t ih =>
    simp only [List.all_cons, Bool.and_eq_true] at h
    simp [List.takeWhile, h.1, ih h.2]

/-- The file-size grammar on a digit run followed by one of the legal
suffixes yields exactly those two groups. -/
theorem fileSizeMatch_append (ds sfx : List Char)
    (hd : isNonzeroDigit (ds.getD 0 ' ') = true) (hall : ds.all isDigitCh = true)
    (hnds : sfx.takeWhile isDigitCh = [])
    (hm : ((["kb", "KB", "mb", "MB", "gb", "GB", "tb", "TB"].map String.data).any
      (· = sfx)) = true) :
    fileSizeMatch (ds ++ sfx) = some (ds, sfx) := by
  have hne : ds.isEmpty = false := by
    cases ds with
    | nil => simp [isNonzeroDigit] at hd
    | cons c t => rfl
  have htw : (ds ++ sfx).takeWhile isDigitCh = ds := by
    rw [takeWhile_append_all isDigitCh ds sfx hall, hnds, List.append_nil]
  have hdrop : (ds ++ sfx).drop ((ds ++ sfx).takeWhile isDigitCh).length = sfx := by
    rw [htw]; exact List.drop_left ds sfx
  have hgd : (ds ++ sfx).getD 0 ' ' = ds.getD 0 ' ' := by
    cases ds with
    | nil => simp [isNonzeroDigit] at hd
    | cons c t => rfl
  have htwgd : ((ds ++ sfx).takeWhile isDigitCh).getD 0 ' ' = ds.getD 0 ' ' := by
    rw [htw]
  simp only [fileSizeMatch, htw, hdrop, hne, htwgd, hd, hall, hm, List.drop_left,
    Bool.not_false, Bool.and_self, Bool.and_true, Bool.true_and, if_true]

/-- C8: for a file field, `size:N{kb,mb,gb}` uses the binary multipliers
1024, 1024² and 1024³ and reports a violation exactly when the file
size strictly exceeds the positive computed limit, while `size:Ntb`
computes no multiplier and never reports a violation; in particular
`size:2mb` accepts a file of exactly 2·1024·1024 bytes and rejects one
of 2·1024·1024+1 bytes. -/
theorem claim8_file_size_rule (env : Env) (locale cm fField : List Char)
    (fh : FileHeader) (ds : List Char)
    (hd : isNonzeroDigit (ds.getD 0 ' ') = true) (hall : ds.all isDigitCh = true) :
    (validatePointer env locale ("size:".data ++ ds ++ "kb".data) cm fField
        (.ptrFile (some fh)) = .ok none ↔
      ¬(int64Wrap (1024 * goParseIntL ds) > 0 ∧ fh.size > int64Wrap (1024 * goParseIntL ds))) ∧
    (validatePointer env locale ("size:".data ++ ds ++ "mb".data) cm fField
        (.ptrFile (some fh)) = .ok none ↔
      ¬(int64Wrap (1024 * 1024 * goParseIntL ds) > 0 ∧ fh.size > int64Wrap (1024 * 1024 * goParseIntL ds))) ∧
    (validatePointer env locale ("size:".data ++ ds ++ "gb".data) cm fField
        (.ptrFile (some fh)) = .ok none ↔
      ¬(int64Wrap (1024 * 1024 * 1024 * goParseIntL ds) > 0 ∧
        fh.size > int64Wrap (1024 * 1024 * 1024 * goParseIntL ds))) ∧
    (validatePointer env locale ("size:".data ++ ds ++ "tb".data) cm fField
        (.ptrFile (some fh)) = .ok none) ∧
    (validatePointer env locale "size:2mb".data cm fField
        (.ptrFile (some ⟨2 * 1024 * 1024, true, []⟩)) = .ok none) ∧
    (validatePointer env locale "size:2mb".data cm fField
        (.ptrFile (some ⟨2 * 1024 * 1024 + 1, true, []⟩)) =
      .ok (some (setMessage env locale "size.file_mb".data (.strM cm) fField
        ["2".data]))) := by
  have hkb := fileSizeMatch_append ds "kb".data hd hall (by decide) (by decide)
  have hmb := fileSizeMatch_append ds "mb".data hd hall (by decide) (by decide)
  have hgb := fileSizeMatch_append ds "gb".data hd hall (by decide) (by decide)
  have htb := fileSizeMatch_append ds "tb".data hd hall (by decide) (by decide)
  have hformkb : validatePointer env locale ("size:".data ++ ds ++ "kb".data) cm fField
      (.ptrFile (some fh)) =
      (match fileSizeMatch (ds ++ "kb".data) with
       | some (size, symbol) =>
         let size64 := goParseIntL size
         let lk : Int × List Char :=
           if toLowerL symbol = "kb".data then (int64Wrap (1024 * size64), "size.file_kb".data)
           else if toLowerL symbol = "mb".data then
             (int64Wrap (1024 * 1024 * size64), "size.file_mb".data)
           else if toLowerL symbol = "gb".data then
             (int64Wrap (1024 * 1024 * 1024 * size64), "size.file_gb".data)
           else (0, [])
         if lk.1 > 0 && fh.size > lk.1 then
           Except.ok (some (setMessage env locale lk.2 (.strM cm) fField [size]))
         else Except.ok none
       | none => Except.ok none) := rfl
  have hformmb : validatePointer env locale ("size:".data ++ ds ++ "mb".data) cm fField
      (.ptrFile (some fh)) =
      (match fileSizeMatch (ds ++ "mb".data) with
       | some (size, symbol) =>
         let size64 := goParseIntL size
         let lk : Int × List Char :=
           if toLowerL symbol = "kb".data then (int64Wrap (1024 * size64), "size.file_kb".data)
           else if toLowerL symbol = "mb".data then
             (int64Wrap (1024 * 1024 * size64), "size.file_mb".data)
           else if toLowerL symbol = "gb".data then
             (int64Wrap (1024 * 1024 * 1024 * size64), "size.file_gb".data)
           else (0, [])
         if lk.1 > 0 && fh.size > lk.1 then
           Except.ok (some (setMessage env locale lk.2 (.strM cm) fField [size]))
         else Except.ok none
       | none => Except.ok none) := rfl
  have hformgb : validatePointer env locale ("size:".data ++ ds ++ "gb".data) cm fField
      (.ptrFile (some fh)) =
      (match fileSizeMatch (ds ++ "gb".data) with
       | some (size, symbol) =>
         let size64 := goParseIntL size
         let lk : Int × List Char :=
           if toLowerL symbol = "kb".data then (int64Wrap (1024 * size64), "size.file_kb".data)
           else if toLowerL symbol = "mb".data then
             (int64Wrap (1024 * 1024 * size64), "size.file_mb".data)
           else if toLowerL symbol = "gb".data then
             (int64Wrap (1024 * 1024 * 1024 * size64), "size.file_gb".data)
           else (0, [])
         if lk.1 > 0 && fh.size > lk.1 then
           Except.ok (some (setMessage env locale lk.2 (.strM cm) fField [size]))
         else Except.ok none
       | none => Except.ok none) := rfl
  have hformtb : validatePointer env locale ("size:".data ++ ds ++ "tb".data) cm fField
      (.ptrFile (some fh)) =
      (match fileSizeMatch (ds ++ "tb".data) with
       | some (size, symbol) =>
         let size64 := goParseIntL size
         let lk : Int × List Char :=
           if toLowerL symbol = "kb".data then (int64Wrap (1024 * size64), "size.file_kb".data)
           else if toLowerL symbol = "mb".data then
             (int64Wrap (1024 * 1024 * size64), "size.file_mb".data)
           else if toLowerL symbol = "gb".data then
             (int64Wrap (1024 * 1024 * 1024 * size64), "size.file_gb".data)
           else (0, [])
         if lk.1 > 0 && fh.size > lk.1 then
           Except.ok (some (setMessage env locale lk.2 (.strM cm) fField [size]))
         else Except.ok none
       | none => Except.ok none) := rfl
  have hredkb : validatePointer env locale ("size:".data ++ ds ++ "kb".data) cm fField
      (.ptrFile (some fh)) =
      (if (decide (int64Wrap (1024 * goParseIntL ds) > 0) &&
          decide (fh.size > int64Wrap (1024 * goParseIntL ds))) = true then
        Except.ok (some (setMessage env locale "size.file_kb".data (.strM cm) fField [ds]))
      else Except.ok none) := by
    rw [hformkb, hkb]
    rfl
  have hredmb : validatePointer env locale ("size:".data ++ ds ++ "mb".data) cm fField
      (.ptrFile (some fh)) =
      (if (decide (int64Wrap (1024 * 1024 * goParseIntL ds) > 0) &&
          decide (fh.size > int64Wrap (1024 * 1024 * goParseIntL ds))) = true then
        Except.ok (some (setMessage env locale "size.file_mb".data (.strM cm) fField [ds]))
      else Except.ok none) := by
    rw [hformmb, hmb]
    rfl
  have hredgb : validatePointer env locale ("size:".data ++ ds ++ "gb".data) cm fField
      (.ptrFile (some fh)) =
      (if (decide (int64Wrap (1024 * 1024 * 1024 * goParseIntL ds) > 0) &&
          decide (fh.size > int64Wrap (1024 * 1024 * 1024 * goParseIntL ds))) = true then
        Except.ok (some (setMessage env locale "size.file_gb".data (.strM cm) fField [ds]))
      else Except.ok none) := by
    rw [hformgb, hgb]
    rfl
  have hredtb : validatePointer env locale ("size:".data ++ ds ++ "tb".data) cm fField
      (.ptrFile (some fh)) = Except.ok none := by
    rw [hformtb, htb]
    rfl
  refine ⟨?_, ?_, ?_, hredtb, rfl, rfl⟩
  · rw [hredkb]
    by_cases hc : int64Wrap (1024 * goParseIntL ds) > 0 ∧ fh.size > int64Wrap (1024 * goParseIntL ds)
    · have hx : (decide (int64Wrap (1024 * goParseIntL ds) > 0) &&
          decide (fh.size > int64Wrap (1024 * goParseIntL ds))) = true := by
        simp only [Bool.and_eq_true, decide_eq_true_eq]
        exact hc
      rw [hx]
      exact ⟨fun h => absurd h (by simp), fun h => absurd hc h⟩
    · have hx : (decide (int64Wrap (1024 * goParseIntL ds) > 0) &&
          decide (fh.size > int64Wrap (1024 * goParseIntL ds))) = false := by
        rcases not_and_or.mp hc with h | h
        · simp only [decide_eq_false h, Bool.false_and]
        · simp only [decide_eq_false h, Bool.and_false]
      rw [hx]
      exact ⟨fun _ => hc, fun _ => rfl⟩
  · rw [hredmb]
    by_cases hc : int64Wrap (1024 * 1024 * goParseIntL ds) > 0 ∧ fh.size > int64Wrap (1024 * 1024 * goParseIntL ds)
    · have hx : (decide (int64Wrap (1024 * 1024 * goParseIntL ds) > 0) &&
          decide (fh.size > int64Wrap (1024 * 1024 * goParseIntL ds))) = true := by
        simp only [Bool.and_eq_true, decide_eq_true_eq]
        exact hc
      rw [hx]
      exact ⟨fun h => absurd h (by simp), fun h => absurd hc h⟩
    · have hx : (decide (int64Wrap (1024 * 1024 * goParseIntL ds) > 0) &&
          decide (fh.size > int64Wrap (1024 * 1024 * goParseIntL ds))) = false := by
        rcases not_and_or.mp hc with h | h
        · simp only [decide_eq_false h, Bool.false_and]
        · simp only [decide_eq_false h, Bool.and_false]
      rw [hx]
      exact ⟨fun _ => hc, fun _ => rfl⟩
  · rw [hredgb]
    by_cases hc : int64Wrap (1024 * 1024 * 1024 * goParseIntL ds) > 0 ∧ fh.size > int64Wrap (1024 * 1024 * 1024 * goParseIntL ds)
    · have hx : (decide (int64Wrap (1024 * 1024 * 1024 * goParseIntL ds) > 0) &&
          decide (fh.size > int64Wrap (1024 * 1024 * 1024 * goParseIntL ds))) = true := by
        simp only [Bool.and_eq_true, decide_eq_true_eq]
        exact hc
      rw [hx]
      exact ⟨fun h => absurd h (by simp), fun h => absurd hc h⟩
    · have hx : (decide (int64Wrap (1024 * 1024 * 1024 * goParseIntL ds) > 0) &&
          decide (fh.size > int64Wrap (1024 * 1024 * 1024 * goParseIntL ds))) = false := by
        rcases not_and_or.mp hc with h | h
        · simp only [decide_eq_false h, Bool.false_and]
        · simp only [decide_eq_false h, Bool.and_false]
      rw [hx]
      exact ⟨fun _ => hc, fun _ => rfl⟩

/-- On a non-empty value, one chain step dispatches the token's rule by
kind: a fault propagates, a violation terminates the chain, otherwise
the loop continues. -/
theorem ruleLoop_cons_of_not_empty (env : Env) (locale : List Char)
    (ctx : List GoField) (fField : List Char) (v : GoValue) (tok : List Char)
    (rest : List (List Char)) (hne : isEmpty v = false) :
    ruleLoop env locale ctx fField v (tok :: rest) =
      (match dispatchKind env locale ctx (getRuleAndMsg tok).1 (getRuleAndMsg tok).2
          fField v with
       | .error d => .error d
       | .ok (some m) => .ok m
       | .ok none => ruleLoop env locale ctx fField v rest) := by
  simp only [ruleLoop, hne, Bool.and_false, Bool.not_false, if_true, if_false,
    Bool.false_eq_true, ite_false, ite_true]

/-- C8 witness: the `size:2mb` bound with the digit run `"2"`. -/
theorem claim8_witness :
    isNonzeroDigit ("2".data.getD 0 ' ') = true ∧ "2".data.all isDigitCh = true ∧
      (validatePointer env0 "en".data ("size:".data ++ "2".data ++ "mb".data) []
          "photo".data (.ptrFile (some ⟨2 * 1024 * 1024 + 1, true, []⟩)) = .ok none ↔
        ¬(int64Wrap (1024 * 1024 * goParseIntL "2".data) > 0 ∧
          (2 * 1024 * 1024 + 1 : Int) > int64Wrap (1024 * 1024 * goParseIntL "2".data))) :=
  ⟨by decide, by decide,
    (claim8_file_size_rule env0 "en".data [] "photo".data
      ⟨2 * 1024 * 1024 + 1, true, []⟩ "2".data (by decide) (by decide)).2.1⟩

/-- C9: evaluating the `uint` rule on a non-zero integer (signed or
unsigned kind) leaves the field's outcome empty exactly when the
decimal rendering matches the pattern `^[1-9]\d+$` — at least two
digits with a non-zero leading digit — and emits the `uint` violation
otherwise; in particular every single-digit value 1–9 fails the
pattern and is reported as not-unsigned. -/
theorem claim9_uint_two_digit_quirk (env : Env) (locale : List Char)
    (ctx : List GoField) (fField : List Char) :
    (∀ i : Int, i ≠ 0 →
      ruleLoop env locale ctx fField (.intV i) ["uint".data] =
        .ok (if matchUintRegex (intDec i) then .strM []
          else setMessage env locale "uint".data (.strM []) fField [])) ∧
    (∀ n : Nat, n ≠ 0 →
      ruleLoop env locale ctx fField (.uintV n) ["uint".data] =
        .ok (if matchUintRegex (natDec n) then .strM []
          else setMessage env locale "uint".data (.strM []) fField [])) ∧
    (∀ n : Nat, 1 ≤ n → n ≤ 9 →
      matchUintRegex (natDec n) = false ∧ matchUintRegex (intDec (n : Int)) = false) := by
  refine ⟨?_, ?_, ?_⟩
  · intro i hi
    have hne : isEmpty (.intV i) = false := by simp [isEmpty, hi]
    rw [ruleLoop_cons_of_not_empty env locale ctx fField _ _ _ hne]
    have hd : dispatchKind env locale ctx (getRuleAndMsg "uint".data).1
        (getRuleAndMsg "uint".data).2 fField (.intV i) =
        .ok (if isNotUint (.intV i) then
          some (setMessage env locale "uint".data (.strM []) fField []) else none) := rfl
    rw [hd]
    by_cases hm : matchUintRegex (intDec i) = true
    · have hnu : isNotUint (.intV i) = false := by simp [isNotUint, goDecRender, hm]
      rw [hnu]
      simp [ruleLoop, hm, setMessage]
    · have hm2 : matchUintRegex (intDec i) = false := by
        revert hm
        cases matchUintRegex (intDec i) <;> simp
      have hnu : isNotUint (.intV i) = true := by simp [isNotUint, goDecRender, hm2]
      rw [hnu]
      simp [hm2]
  · intro n hn
    have hne : isEmpty (.uintV n) = false := by simp [isEmpty, hn]
    rw [ruleLoop_cons_of_not_empty env locale ctx fField _ _ _ hne]
    have hd : dispatchKind env locale ctx (getRuleAndMsg "uint".data).1
        (getRuleAndMsg "uint".data).2 fField (.uintV n) =
        .ok (if isNotUint (.uintV n) then
          some (setMessage env locale "uint".data (.strM []) fField []) else none) := rfl
    rw [hd]
    by_cases hm : matchUintRegex (natDec n) = true
    · have hnu : isNotUint (.uintV n) = false := by simp [isNotUint, goDecRender, hm]
      rw [hnu]
      simp [ruleLoop, hm, setMessage]
    · have hm2 : matchUintRegex (natDec n) = false := by
        revert hm
        cases matchUintRegex (natDec n) <;> simp
      have hnu : isNotUint (.uintV n) = true := by simp [isNotUint, goDecRender, hm2]
      rw [hnu]
      simp [hm2]
  · intro n h1 h2
    interval_cases n <;> exact ⟨by decide, by decide⟩

/-- C9 witness: the single-digit value 5 on a signed-integer field. -/
theorem claim9_witness :
    (5 : Int) ≠ 0 ∧ matchUintRegex (intDec 5) = false ∧
      ruleLoop env0 "en".data [] "n".data (.intV 5) ["uint".data] =
        .ok (if matchUintRegex (intDec 5) then .strM []
          else setMessage env0 "en".data "uint".data (.strM []) "n".data []) :=
  ⟨by decide, by decide,
    (claim9_uint_two_digit_quirk env0 "en".data [] "n".data).1 5 (by decide)⟩

/-- When no field carries the looked-up tag, `getTagAndValue` returns
the zero tag and the invalid value. -/
theorem getTagAndValue_not_found (flds : List GoField) (t : List Char)
    (h : ∀ g ∈ flds, g.jsonTag ≠ some t) : getTagAndValue flds t = ([], none) := by
  induction flds with
  | nil => rfl
  | cons f rest ih =>
    have hf := h f (by simp)
    have hr : ∀ g ∈ rest, g.jsonTag ≠ some t := fun g hg => h g (by simp [hg])
    cases hj : f.jsonTag with
    | none => simp [getTagAndValue, hj, ih hr]
    | some u =>
      have hu : ¬(u = t) := by
        intro he
        exact hf (by rw [hj, he])
      simp [getTagAndValue, hj, hu, ih hr]

/-- C10: `same:t` and `match:t` with a tag `t` no field of the record
carries compare against the invalid `reflect.Value`, whose `String()`
rendering is the literal `"<invalid Value>"`; the rule passes exactly
when the value trims to that literal, reports the `same`/`match`
violation otherwise, and never faults on the missing reference. -/
theorem claim10_missing_cross_field_target (env : Env) (locale : List Char)
    (flds : List GoField) (t cm fField s : List Char)
    (h : ∀ g ∈ flds, g.jsonTag ≠ some t) :
    (validateStringParams env locale flds ("same:".data ++ t) cm fField (.strV s) =
      .ok (if trimSpaceL s = "<invalid Value>".data then none
        else some (setMessage env locale "same".data (.strM cm) fField [[]]))) ∧
    (validateStringParams env locale flds ("match:".data ++ t) cm fField (.strV s) =
      .ok (if trimSpaceL s = "<invalid Value>".data then none
        else some (setMessage env locale "match".data (.strM cm) fField []))) := by
  have hg := getTagAndValue_not_found flds t h
  have htr : trimSpaceL "<invalid Value>".data = "<invalid Value>".data := rfl
  constructor
  · have hform : validateStringParams env locale flds ("same:".data ++ t) cm fField
        (.strV s) =
        .ok (if isNotSame (.strV s) (getTagAndValue flds t).2 then
          some (setMessage env locale "same".data (.strM cm) fField
            [(getTagAndValue flds t).1])
        else none) := rfl
    rw [hform, hg]
    by_cases ht : trimSpaceL s = "<invalid Value>".data
    · have hx : isNotSame (.strV s) (none : Option GoValue) = false := by
        simp [isNotSame, goString, goStringO, htr, ht]
      simp [hx, ht]
    · have hx : isNotSame (.strV s) (none : Option GoValue) = true := by
        simp [isNotSame, goString, goStringO, htr, ht]
      simp [hx, ht]
  · have hform : validateStringParams env locale flds ("match:".data ++ t) cm fField
        (.strV s) =
        .ok (if isNotSame (.strV s) (getTagAndValue flds t).2 then
          some (setMessage env locale "match".data (.strM cm) fField [])
        else none) := rfl
    rw [hform, hg]
    by_cases ht : trimSpaceL s = "<invalid Value>".data
    · have hx : isNotSame (.strV s) (none : Option GoValue) = false := by
        simp [isNotSame, goString, goStringO, htr, ht]
      simp [hx, ht]
    · have hx : isNotSame (.strV s) (none : Option GoValue) = true := by
        simp [isNotSame, goString, goStringO, htr, ht]
      simp [hx, ht]

/-- C10 witness: a record with only a `pwd` field, rule `same:other`. -/
theorem claim10_witness :
    (∀ g ∈ [(⟨some "pwd".data, some "same:other".data, .strV "x".data⟩ : GoField)],
        g.jsonTag ≠ some "other".data) ∧
      validateStringParams env0 "en".data
          [⟨some "pwd".data, some "same:other".data, .strV "x".data⟩]
          ("same:".data ++ "other".data) [] "pwd".data (.strV "abc".data) =
        .ok (if trimSpaceL "abc".data = "<invalid Value>".data then none
          else some (setMessage env0 "en".data "same".data (.strM []) "pwd".data [[]])) :=
  ⟨by decide,
    (claim10_missing_cross_field_target env0 "en".data
      [⟨some "pwd".data, some "same:other".data, .strV "x".data⟩]
      "other".data [] "pwd".data "abc".data (by decide)).1⟩

/-- C2: on an empty value, a chain containing `required` anywhere
evaluates to exactly the required violation (the `bool` variant for a
boolean field), carrying the custom message of the first `required`
token; tokens before or after it contribute nothing, so the position of
`required` never changes the outcome. -/
theorem claim2_required_position_irrelevant (env : Env) (locale : List Char)
    (ctx : List GoField) (fField : List Char) (v : GoValue)
    (toks : List (List Char)) (tok : List Char)
    (he : isEmpty v = true)
    (hf : toks.find? (fun tk => decide ((getRuleAndMsg tk).1 = "required".data)) =
      some tok) :
    ruleLoop env locale ctx fField v toks =
      .ok (setMessage env locale (if isBoolV v then "bool".data else "required".data)
        (.strM (getRuleAndMsg tok).2) fField []) := by
  induction toks with
  | nil => simp [List.find?] at hf
  | cons a rest ih =>
    by_cases hr : (getRuleAndMsg a).1 = "required".data
    · have hfa : (a :: rest).find?
          (fun tk => decide ((getRuleAndMsg tk).1 = "required".data)) = some a := by
        simp [List.find?, hr]
      have hat : a = tok := by
        rw [hfa] at hf
        exact Option.some.inj hf
      subst hat
      simp only [ruleLoop, decide_eq_true hr, he, Bool.and_self, if_true]
      cases hb : isBoolV v <;> simp [hb]
    · have hfr : rest.find?
          (fun tk => decide ((getRuleAndMsg tk).1 = "required".data)) = some tok := by
        simpa [List.find?, hr] using hf
      simp only [ruleLoop, decide_eq_false hr, Bool.false_and, he, Bool.not_true,
        Bool.false_eq_true, if_false, ite_false]
      exact ih hfr

/-- C2 witness: the chain `string|required>msg|min:3` on an empty
string field yields the required violation with the custom message,
exactly as a chain starting with `required` would. -/
theorem claim2_witness :
    isEmpty (.strV []) = true ∧
      (["string", "required>msg", "min:3"].map String.data).find?
          (fun tk => decide ((getRuleAndMsg tk).1 = "required".data)) =
        some "required>msg".data ∧
      ruleLoop env0 "en".data [] "name".data (.strV [])
          (["string", "required>msg", "min:3"].map String.data) =
        .ok (setMessage env0 "en".data
          (if isBoolV (.strV []) then "bool".data else "required".data)
          (.strM (getRuleAndMsg "required>msg".data).2) "name".data []) :=
  ⟨by decide, by decide,
    claim2_required_position_irrelevant env0 "en".data [] "name".data (.strV [])
      (["string", "required>msg", "min:3"].map String.data) "required>msg".data
      (by decide) (by decide)⟩

/-- C1: `ValidateStruct` returns the nil report exactly when every
eligible field's task ends with the empty payload — i.e. every field
carrying both tags walked its whole chain without a violation (empty
`required` values included) and without a fault; conversely a non-empty
report arises only when some eligible field has an outcome to show. -/
theorem claim1_empty_report_iff_all_pass (env : Env) (locale : List Char)
    (flds : List GoField) :
    ValidateStructGo env locale flds = none ↔
      ∀ f ∈ flds, f.eligible = true → fieldPasses env locale flds f = true := by
  have h1 : ValidateStructGo env locale flds = none ↔
      structValidator env locale flds = [] := by
    unfold ValidateStructGo
    cases hr : structValidator env locale flds <;> simp
  rw [h1]
  unfold structValidator
  rw [List.filter_eq_nil_iff]
  simp only [List.mem_map, List.mem_filter, fieldPasses, Bool.not_eq_true',
    Bool.not_eq_false, forall_exists_index, and_imp, Prod.forall]
  constructor
  · intro h f hf he
    exact h (fieldTask env locale flds f).1 (fieldTask env locale flds f).2 f hf he rfl
  · intro h a b f hf he hab
    have hx := h f hf he
    rw [hab] at hx
    exact hx

/-- Cross-field lookups never read the `validate` tag, so changing one
field's `validate` tag changes no lookup result. -/
theorem getTagAndValue_validateTag_irrel (l₁ l₂ : List GoField)
    (jt vt vt' : Option (List Char)) (val : GoValue) (t : List Char) :
    getTagAndValue (l₁ ++ ⟨jt, vt, val⟩ :: l₂) t =
      getTagAndValue (l₁ ++ ⟨jt, vt', val⟩ :: l₂) t := by
  induction l₁ with
  | nil => cases jt <;> simp [getTagAndValue]
  | cons g r ih =>
    cases hj : g.jsonTag <;> simp [getTagAndValue, hj, ih]

/-- Go `validateStringParams` reads the record only through
`getTagAndValue`. -/
theorem validateStringParams_ctx_congr (env : Env) (locale : List Char)
    (ctx ctx' : List GoField)
    (hctx : ∀ u, getTagAndValue ctx u = getTagAndValue ctx' u)
    (rule cm fField : List Char) (v : GoValue) :
    validateStringParams env locale ctx rule cm fField v =
      validateStringParams env locale ctx' rule cm fField v := by
  unfold validateStringParams
  simp only [hctx]

/-- Go `validateNumericParams` reads the record only through
`getTagAndValue`. -/
theorem validateNumericParams_ctx_congr (env : Env) (locale : List Char)
    (ctx ctx' : List GoField)
    (hctx : ∀ u, getTagAndValue ctx u = getTagAndValue ctx' u)
    (rule cm fField : List Char) (v : GoValue) :
    validateNumericParams env locale ctx rule cm fField v =
      validateNumericParams env locale ctx' rule cm fField v := by
  unfold validateNumericParams
  simp only [hctx]

/-- Go `validateString` reads the record only through `getTagAndValue`. -/
theorem validateString_ctx_congr (env : Env) (locale : List Char)
    (ctx ctx' : List GoField)
    (hctx : ∀ u, getTagAndValue ctx u = getTagAndValue ctx' u)
    (rule cm fField : List Char) (v : GoValue) :
    validateString env locale ctx rule cm fField v =
      validateString env locale ctx' rule cm fField v := by
  unfold validateString
  simp only [validateStringParams_ctx_congr env locale ctx ctx' hctx]

/-- Go `validateNumeric` reads the record only through `getTagAndValue`. -/
theorem validateNumeric_ctx_congr (env : Env) (locale : List Char)
    (ctx ctx' : List GoField)
    (hctx : ∀ u, getTagAndValue ctx u = getTagAndValue ctx' u)
    (rule cm fField : List Char) (v : GoValue) :
    validateNumeric env locale ctx rule cm fField v =
      validateNumeric env locale ctx' rule cm fField v := by
  unfold validateNumeric
  simp only [validateNumericParams_ctx_congr env locale ctx ctx' hctx]

/-- Go `validateFloat` reads the record only through `getTagAndValue`. -/
theorem validateFloat_ctx_congr (env : Env) (locale : List Char)
    (ctx ctx' : List GoField)
    (hctx : ∀ u, getTagAndValue ctx u = getTagAndValue ctx' u)
    (rule cm fField : List Char) (v : GoValue) :
    validateFloat env locale ctx rule cm fField v =
      validateFloat env locale ctx' rule cm fField v := by
  unfold validateFloat
  simp only [validateNumericParams_ctx_congr env locale ctx ctx' hctx]

/-- The kind dispatcher reads the record only through
`getTagAndValue`. -/
theorem dispatchKind_ctx_congr (env : Env) (locale : List Char)
    (ctx ctx' : List GoField)
    (hctx : ∀ u, getTagAndValue ctx u = getTagAndValue ctx' u)
    (rule cm fField : List Char) (v : GoValue) :
    dispatchKind env locale ctx rule cm fField v =
      dispatchKind env locale ctx' rule cm fField v := by
  cases v with
  | strV s => exact validateString_ctx_congr env locale ctx ctx' hctx rule cm fField _
  | intV i => exact validateNumeric_ctx_congr env locale ctx ctx' hctx rule cm fField _
  | uintV n => exact validateNumeric_ctx_congr env locale ctx ctx' hctx rule cm fField _
  | floatV q => exact validateFloat_ctx_congr env locale ctx ctx' hctx rule cm fField _
  | boolV b => rfl
  | sliceV elems => rfl
  | ptrFile fh => rfl
  | ptrOther b => rfl

/-- One field's whole chain evaluation reads the record only through
`getTagAndValue`. -/
theorem ruleLoop_ctx_congr (env : Env) (locale : List Char)
    (ctx ctx' : List GoField)
    (hctx : ∀ u, getTagAndValue ctx u = getTagAndValue ctx' u)
    (fField : List Char) (v : GoValue) (toks : List (List Char)) :
    ruleLoop env locale ctx fField v toks = ruleLoop env locale ctx' fField v toks := by
  induction toks with
  | nil => rfl
  | cons a rest ih =>
    simp only [ruleLoop, dispatchKind_ctx_congr env locale ctx ctx' hctx, ih]

/-- One field's task reads the record only through `getTagAndValue`. -/
theorem fieldTask_ctx_congr (env : Env) (locale : List Char)
    (ctx ctx' : List GoField)
    (hctx : ∀ u, getTagAndValue ctx u = getTagAndValue ctx' u) (g : GoField) :
    fieldTask env locale ctx g = fieldTask env locale ctx' g := by
  unfold fieldTask validateStructField
  simp only [ruleLoop_ctx_congr env locale ctx ctx' hctx]

/-- A field's message is always keyed by its own `json` tag, on the
normal and on the recovered path alike. -/
theorem fieldTask_fst (env : Env) (locale : List Char) (ctx : List GoField)
    (g : GoField) : (fieldTask env locale ctx g).1 = g.jsonTag.getD [] := by
  unfold fieldTask validateStructField
  cases hr : ruleLoop env locale ctx (formatFieldName (g.jsonTag.getD [])) g.value
      (splitOnCh '|' (g.validateTag.getD [])) <;> simp [Except.map, hr]

/-- C4: when one eligible field's evaluation faults, the recovered task
turns the fault into that field's own report entry
(`validation panic: <detail>`), and every other field's entry is
exactly what it would be had the faulting field simply not been
validated (its `validate` tag removed, its value untouched) — one
field's fault never perturbs its siblings, and the call still returns
a report. -/
theorem claim4_panic_isolated_to_field (env : Env) (locale : List Char)
    (l₁ l₂ : List GoField) (jt vt : List Char) (val : GoValue) (d : List Char)
    (hfault : validateStructField env locale (l₁ ++ ⟨some jt, some vt, val⟩ :: l₂)
      ⟨some jt, some vt, val⟩ = .error d)
    (htags : ∀ g ∈ l₁ ++ l₂, g.jsonTag ≠ some jt) :
    (jt, MsgVal.strM ("validation panic: ".data ++ d)) ∈
        structValidator env locale (l₁ ++ ⟨some jt, some vt, val⟩ :: l₂) ∧
      (structValidator env locale (l₁ ++ ⟨some jt, some vt, val⟩ :: l₂)).filter
          (fun m => decide (m.1 ≠ jt)) =
        structValidator env locale (l₁ ++ ⟨some jt, none, val⟩ :: l₂) := by
  have hctx : ∀ u, getTagAndValue (l₁ ++ ⟨some jt, some vt, val⟩ :: l₂) u =
      getTagAndValue (l₁ ++ ⟨some jt, none, val⟩ :: l₂) u :=
    fun u => getTagAndValue_validateTag_irrel l₁ l₂ (some jt) (some vt) none val u
  have hfun : fieldTask env locale (l₁ ++ ⟨some jt, some vt, val⟩ :: l₂) =
      fieldTask env locale (l₁ ++ ⟨some jt, none, val⟩ :: l₂) :=
    funext (fieldTask_ctx_congr env locale _ _ hctx)
  have hTF : fieldTask env locale (l₁ ++ ⟨some jt, some vt, val⟩ :: l₂)
      ⟨some jt, some vt, val⟩ = (jt, .strM ("validation panic: ".data ++ d)) := by
    unfold fieldTask
    rw [hfault]
    rfl
  have hEF : (l₁ ++ (⟨some jt, some vt, val⟩ : GoField) :: l₂).filter GoField.eligible =
      l₁.filter GoField.eligible ++ ⟨some jt, some vt, val⟩ ::
        l₂.filter GoField.eligible := by
    simp [List.filter_append, List.filter_cons, GoField.eligible]
  have hEF' : (l₁ ++ (⟨some jt, none, val⟩ : GoField) :: l₂).filter GoField.eligible =
      l₁.filter GoField.eligible ++ l₂.filter GoField.eligible := by
    simp [List.filter_append, List.filter_cons, GoField.eligible]
  have hpne : (!(MsgVal.strM ("validation panic: ".data ++ d)).isEmptyStr) = true := rfl
  have hS : structValidator env locale (l₁ ++ ⟨some jt, some vt, val⟩ :: l₂) =
      ((l₁.filter GoField.eligible).map
          (fieldTask env locale (l₁ ++ ⟨some jt, some vt, val⟩ :: l₂))).filter
        (fun m => !m.2.isEmptyStr) ++
        (jt, MsgVal.strM ("validation panic: ".data ++ d)) ::
        ((l₂.filter GoField.eligible).map
          (fieldTask env locale (l₁ ++ ⟨some jt, some vt, val⟩ :: l₂))).filter
        (fun m => !m.2.isEmptyStr) := by
    unfold structValidator
    rw [hEF, List.map_append, List.map_cons, hTF, List.filter_append,
      List.filter_cons]
    rw [hpne]
    simp
  have hS' : structValidator env locale (l₁ ++ ⟨some jt, none, val⟩ :: l₂) =
      ((l₁.filter GoField.eligible).map
          (fieldTask env locale (l₁ ++ ⟨some jt, some vt, val⟩ :: l₂))).filter
        (fun m => !m.2.isEmptyStr) ++
        ((l₂.filter GoField.eligible).map
          (fieldTask env locale (l₁ ++ ⟨some jt, some vt, val⟩ :: l₂))).filter
        (fun m => !m.2.isEmptyStr) := by
    unfold structValidator
    rw [hEF', List.map_append, List.filter_append, hfun]
  have hkeys : ∀ li : List GoField, (∀ g ∈ li, g.jsonTag ≠ some jt) →
      ∀ m ∈ ((li.filter GoField.eligible).map
          (fieldTask env locale (l₁ ++ ⟨some jt, some vt, val⟩ :: l₂))).filter
        (fun m => !m.2.isEmptyStr), m.1 ≠ jt := by
    intro li hli m hm
    have hm2 := (List.mem_filter.mp hm).1
    obtain ⟨g, hg, rfl⟩ := List.mem_map.mp hm2
    have hgl : g ∈ li := (List.mem_filter.mp hg).1
    have hel : g.eligible = true := (List.mem_filter.mp hg).2
    simp only [GoField.eligible, Bool.and_eq_true] at hel
    obtain ⟨u, hu⟩ := Option.isSome_iff_exists.mp hel.1
    rw [fieldTask_fst, hu]
    intro he
    apply hli g hgl
    rw [hu]
    simpa using he
  constructor
  · rw [hS]
    exact List.mem_append_right _ (List.mem_cons_self _ _)
  · rw [hS, hS']
    rw [List.filter_append, List.filter_cons]
    have hmid : (decide ((jt, MsgVal.strM ("validation panic: ".data ++ d)).1 ≠ jt)) =
        false := by simp
    rw [hmid]
    simp only [if_false, ite_false, Bool.false_eq_true]
    have hA := List.filter_eq_self.mpr (fun m hm =>
      decide_eq_true (hkeys l₁ (fun g hg => htags g (List.mem_append_left _ hg)) m hm))
    have hB := List.filter_eq_self.mpr (fun m hm =>
      decide_eq_true (hkeys l₂ (fun g hg => htags g (List.mem_append_right _ hg)) m hm))
    rw [hA, hB]

/-- C4 witness: a record whose middle field carries the malformed rule
`from:5` (no comma), which panics with an index-out-of-range fault; the
report keeps the panic entry under `age` and the `name`/`city` entries
are those of the record without the faulting field. -/
theorem claim4_witness :
    validateStructField env0 "en".data
        ([⟨some "name".data, some "min:2".data, .strV "ab".data⟩] ++
          ⟨some "age".data, some "from:5".data, .intV 3⟩ ::
          [⟨some "city".data, some "alpha".data, .strV "Accra".data⟩])
        ⟨some "age".data, some "from:5".data, .intV 3⟩ =
      .error "runtime error: index out of range [1] with length 1".data ∧
    (∀ g ∈ [(⟨some "name".data, some "min:2".data, .strV "ab".data⟩ : GoField)] ++
        [(⟨some "city".data, some "alpha".data, .strV "Accra".data⟩ : GoField)],
      g.jsonTag ≠ some "age".data) ∧
    (("age".data, MsgVal.strM ("validation panic: ".data ++
        "runtime error: index out of range [1] with length 1".data)) ∈
      structValidator env0 "en".data
        ([⟨some "name".data, some "min:2".data, .strV "ab".data⟩] ++
          ⟨some "age".data, some "from:5".data, .intV 3⟩ ::
          [⟨some "city".data, some "alpha".data, .strV "Accra".data⟩]) ∧
      (structValidator env0 "en".data
          ([⟨some "name".data, some "min:2".data, .strV "ab".data⟩] ++
            ⟨some "age".data, some "from:5".data, .intV 3⟩ ::
            [⟨some "city".data, some "alpha".data, .strV "Accra".data⟩])).filter
          (fun m => decide (m.1 ≠ "age".data)) =
        structValidator env0 "en".data
          ([⟨some "name".data, some "min:2".data, .strV "ab".data⟩] ++
            ⟨some "age".data, none, .intV 3⟩ ::
            [⟨some "city".data, some "alpha".data, .strV "Accra".data⟩])) :=
  ⟨rfl, by decide,
    claim4_panic_isolated_to_field env0 "en".data
      [⟨some "name".data, some "min:2".data, .strV "ab".data⟩]
      [⟨some "city".data, some "alpha".data, .strV "Accra".data⟩]
      "age".data "from:5".data (.intV 3)
      "runtime error: index out of range [1] with length 1".data rfl (by decide)⟩

end Valid
